import Mathlib

/-!
Verification of the tseit_trimmer transport-stream program-information
extractor against its natural-language specification.

The development is a shallow embedding of `src/tseit_trimmer.py`:
bytes are modelled as `Nat` values below 256, byte strings as `List Nat`,
Python slices as `drop`/`take` (both clamp, as Python slices do), Python
dictionaries as association lists in insertion order, and Python floats as
exact rationals (`ℚ`) with `int()` modelled as truncation toward zero.
Code paths that raise an exception are modelled with `Option`, `none`
standing for a propagated exception.  The external ARIB character-set
decoder is an opaque capability in the specification, so every definition
that needs it takes a parameter `dec : List Nat → String`.
-/

/-! ## Utility functions (source: Utility Functions section) -/

/-- Embeds `bcd_to_decimal`: `((bcd >> 4) * 10) + (bcd & 0x0F)`. -/
def bcd_to_decimal (bcd : Nat) : Nat :=
  (bcd >>> 4) * 10 + (bcd &&& 0x0F)

/-- Models Python `int(x)` applied to an exact rational value: truncation
toward zero.  `Int.tdiv` is truncating division and `q.den` is positive. -/
def pyInt (q : ℚ) : ℤ :=
  Int.tdiv q.num q.den

/-- Models the value held by a Python `datetime.datetime` (date and time
fields only; the program never uses time zones on these values). -/
structure PyDateTime where
  year : ℤ
  month : ℤ
  day : ℤ
  hour : ℤ
  minute : ℤ
  second : ℤ
deriving DecidableEq

/-- Gregorian leap-year rule, as used by Python `datetime`. -/
def isLeapYear (y : ℤ) : Bool :=
  y % 4 == 0 && (y % 100 != 0 || y % 400 == 0)

/-- Number of days in a month, as used by Python `datetime`. -/
def daysInMonth (y m : ℤ) : ℤ :=
  if m = 2 then (if isLeapYear y then 29 else 28)
  else if m = 4 ∨ m = 6 ∨ m = 9 ∨ m = 11 then 30
  else 31

/-- Validity condition of the Python `datetime.datetime` constructor: the
constructor raises `ValueError` exactly when this fails. -/
abbrev pyDatetimeValid (y mo d h mi s : ℤ) : Prop :=
  1 ≤ y ∧ y ≤ 9999 ∧ 1 ≤ mo ∧ mo ≤ 12 ∧ 1 ≤ d ∧ d ≤ daysInMonth y mo ∧
  0 ≤ h ∧ h ≤ 23 ∧ 0 ≤ mi ∧ mi ≤ 59 ∧ 0 ≤ s ∧ s ≤ 59

/-- Models `datetime.datetime(...)` wrapped in the source's
`try ... except ValueError: return None`. -/
def pyDatetime (y mo d h mi s : ℤ) : Option PyDateTime :=
  if pyDatetimeValid y mo d h mi s then some ⟨y, mo, d, h, mi, s⟩ else none

/-- The calendar fields computed by `mjd_to_datetime` before the
`datetime` constructor is called (ETSI EN 300 468 Annex C arithmetic).
The Python float expressions are modelled by exact rationals; `int()` is
`pyInt` (truncation toward zero).  Result order:
(year, month, day, hour, minute, second). -/
def mjd_fields (mjd hour_bcd min_bcd sec_bcd : Nat) : ℤ × ℤ × ℤ × ℤ × ℤ × ℤ :=
  let hour : ℤ := bcd_to_decimal hour_bcd
  let minute : ℤ := bcd_to_decimal min_bcd
  let second : ℤ := bcd_to_decimal sec_bcd
  let y_prime : ℤ := pyInt (((mjd : ℚ) - 15078.2) / 365.25)
  let m_prime : ℤ :=
    pyInt (((mjd : ℚ) - 14956.1 - (pyInt ((y_prime : ℚ) * 365.25) : ℚ)) / 30.6001)
  let day : ℤ :=
    (mjd : ℤ) - 14956 - pyInt ((y_prime : ℚ) * 365.25) - pyInt ((m_prime : ℚ) * 30.6001)
  let k : ℤ := if m_prime = 14 ∨ m_prime = 15 then 1 else 0
  (y_prime + k + 1900, m_prime - 1 - k * 12, day, hour, minute, second)

/-- Embeds `mjd_to_datetime`: decode BCD time fields, convert the MJD day
count, and build a `datetime`, returning `none` when the constructor would
raise `ValueError`. -/
def mjd_to_datetime (mjd hour_bcd min_bcd sec_bcd : Nat) : Option PyDateTime :=
  let f := mjd_fields mjd hour_bcd min_bcd sec_bcd
  pyDatetime f.1 f.2.1 f.2.2.1 f.2.2.2.1 f.2.2.2.2.1 f.2.2.2.2.2

/-! ## TSPacketUtil -/

/-- Embeds `TSPacketUtil.get_pid`: `((packet[1] & 0x1F) << 8) | packet[2]`. -/
def get_pid (packet : List Nat) : Nat :=
  ((packet.getD 1 0 &&& 0x1F) <<< 8) ||| packet.getD 2 0

/-- Embeds `TSPacketUtil.has_payload_start`: `(packet[1] & 0x40) != 0`. -/
def has_payload_start (packet : List Nat) : Bool :=
  (packet.getD 1 0 &&& 0x40) != 0

/-- Embeds `TSPacketUtil.has_adaptation_field`: `(packet[3] & 0x20) != 0`. -/
def has_adaptation_field (packet : List Nat) : Bool :=
  (packet.getD 3 0 &&& 0x20) != 0

/-- Embeds `TSPacketUtil.get_payload_offset`: 4, plus `1 + packet[4]` when
an adaptation field is present. -/
def get_payload_offset (packet : List Nat) : Nat :=
  if has_adaptation_field packet then 4 + (1 + packet.getD 4 0) else 4

/-! ## Static reference tables -/

/-- Embeds the `ARIB_GENRE_LARGE` dictionary (large genre categories). -/
def ARIB_GENRE_LARGE : Nat → Option String
  | 0x0 => some "ニュース/報道"
  | 0x1 => some "スポーツ"
  | 0x2 => some "情報/ワイドショー"
  | 0x3 => some "ドラマ"
  | 0x4 => some "音楽"
  | 0x5 => some "バラエティ"
  | 0x6 => some "映画"
  | 0x7 => some "アニメ/特撮"
  | 0x8 => some "ドキュメンタリー/教養"
  | 0x9 => some "劇場/公演"
  | 0xA => some "趣味/教育"
  | 0xB => some "福祉"
  | 0xC => some "予備"
  | 0xD => some "予備"
  | 0xE => some "拡張"
  | 0xF => some "その他"
  | _ => none

/-- Middle-genre sub-table for large code 0x0 (ニュース/報道). -/
def GENRE_MIDDLE_00 : List (Nat × String) :=
  [(0x0, "定時・総合"), (0x1, "天気"), (0x2, "特集・ドキュメント"), (0x3, "政治・国会"),
   (0x4, "経済・市況"), (0x5, "海外・国際"), (0x6, "解説"), (0x7, "討論・会談"),
   (0x8, "報道特番"), (0x9, "ローカル・地域"), (0xA, "交通"), (0xF, "その他")]

/-- Middle-genre sub-table for large code 0x1 (スポーツ). -/
def GENRE_MIDDLE_01 : List (Nat × String) :=
  [(0x0, "スポーツニュース"), (0x1, "野球"), (0x2, "サッカー"), (0x3, "ゴルフ"),
   (0x4, "その他の球技"), (0x5, "相撲・格闘技"), (0x6, "オリンピック・国際大会"),
   (0x7, "マラソン・陸上・水泳"), (0x8, "モータースポーツ"), (0x9, "マリン・ウィンタースポーツ"),
   (0xA, "競馬・公営競技"), (0xF, "その他")]

/-- Middle-genre sub-table for large code 0x2 (情報/ワイドショー). -/
def GENRE_MIDDLE_02 : List (Nat × String) :=
  [(0x0, "芸能・ワイドショー"), (0x1, "ファッション"), (0x2, "暮らし・住まい"), (0x3, "健康・医療"),
   (0x4, "ショッピング・通販"), (0x5, "グルメ・料理"), (0x6, "イベント"), (0x7, "番組紹介・お知らせ"),
   (0xF, "その他")]

/-- Middle-genre sub-table for large code 0x3 (ドラマ). -/
def GENRE_MIDDLE_03 : List (Nat × String) :=
  [(0x0, "国内ドラマ"), (0x1, "海外ドラマ"), (0x2, "時代劇"), (0xF, "その他")]

/-- Middle-genre sub-table for large code 0x4 (音楽). -/
def GENRE_MIDDLE_04 : List (Nat × String) :=
  [(0x0, "国内ロック・ポップス"), (0x1, "海外ロック・ポップス"), (0x2, "クラシック・オペラ"),
   (0x3, "ジャズ・フュージョン"), (0x4, "歌謡曲・演歌"), (0x5, "ライブ・コンサート"),
   (0x6, "ランキング・リクエスト"), (0x7, "カラオケ・のど自慢"), (0x8, "民謡・邦楽"),
   (0x9, "童謡・キッズ"), (0xA, "民族音楽・ワールドミュージック"), (0xF, "その他")]

/-- Middle-genre sub-table for large code 0x5 (バラエティ). -/
def GENRE_MIDDLE_05 : List (Nat × String) :=
  [(0x0, "クイズ"), (0x1, "ゲーム"), (0x2, "トークバラエティ"), (0x3, "お笑い・コメディ"),
   (0x4, "音楽バラエティ"), (0x5, "旅バラエティ"), (0x6, "料理バラエティ"), (0xF, "その他")]

/-- Middle-genre sub-table for large code 0x6 (映画). -/
def GENRE_MIDDLE_06 : List (Nat × String) :=
  [(0x0, "洋画"), (0x1, "邦画"), (0x2, "アニメ"), (0xF, "その他")]

/-- Middle-genre sub-table for large code 0x7 (アニメ/特撮). -/
def GENRE_MIDDLE_07 : List (Nat × String) :=
  [(0x0, "国内アニメ"), (0x1, "海外アニメ"), (0x2, "特撮"), (0xF, "その他")]

/-- Middle-genre sub-table for large code 0x8 (ドキュメンタリー/教養). -/
def GENRE_MIDDLE_08 : List (Nat × String) :=
  [(0x0, "社会・時事"), (0x1, "歴史・紀行"), (0x2, "自然・動物・環境"), (0x3, "宇宙・科学・医学"),
   (0x4, "カルチャー・伝統文化"), (0x5, "文学・文芸"), (0x6, "スポーツ"), (0x7, "ドキュメンタリー全般"),
   (0x8, "インタビュー・討論"), (0xF, "その他")]

/-- Middle-genre sub-table for large code 0x9 (劇場/公演). -/
def GENRE_MIDDLE_09 : List (Nat × String) :=
  [(0x0, "現代劇・新劇"), (0x1, "ミュージカル"), (0x2, "ダンス・バレエ"), (0x3, "落語・演芸"),
   (0x4, "歌舞伎・古典"), (0xF, "その他")]

/-- Middle-genre sub-table for large code 0xA (趣味/教育). -/
def GENRE_MIDDLE_0A : List (Nat × String) :=
  [(0x0, "旅・釣り・アウトドア"), (0x1, "園芸・ペット・手芸"), (0x2, "音楽・美術・工芸"),
   (0x3, "囲碁・将棋"), (0x4, "麻雀・パチンコ"), (0x5, "車・オートバイ"), (0x6, "コンピュータ・TVゲーム"),
   (0x7, "会話・語学"), (0x8, "幼児・小学生"), (0x9, "中学生・高校生"), (0xA, "大学生・受験"),
   (0xB, "生涯教育・資格"), (0xC, "教育問題"), (0xF, "その他")]

/-- Middle-genre sub-table for large code 0xB (福祉). -/
def GENRE_MIDDLE_0B : List (Nat × String) :=
  [(0x0, "高齢者"), (0x1, "障害者"), (0x2, "社会福祉"), (0x3, "ボランティア"), (0x4, "手話"),
   (0x5, "文字（字幕）"), (0x6, "音声解説"), (0xF, "その他")]

/-- Embeds the `ARIB_GENRE_MIDDLE` dictionary: large code to its
middle-category sub-table, when one exists (only codes 0x0 through 0xB). -/
def ARIB_GENRE_MIDDLE : Nat → Option (List (Nat × String))
  | 0x0 => some GENRE_MIDDLE_00
  | 0x1 => some GENRE_MIDDLE_01
  | 0x2 => some GENRE_MIDDLE_02
  | 0x3 => some GENRE_MIDDLE_03
  | 0x4 => some GENRE_MIDDLE_04
  | 0x5 => some GENRE_MIDDLE_05
  | 0x6 => some GENRE_MIDDLE_06
  | 0x7 => some GENRE_MIDDLE_07
  | 0x8 => some GENRE_MIDDLE_08
  | 0x9 => some GENRE_MIDDLE_09
  | 0xA => some GENRE_MIDDLE_0A
  | 0xB => some GENRE_MIDDLE_0B
  | _ => none

/-- Models Python `dict.get(k)` on a table held as an association list. -/
def tableGet (tbl : List (Nat × String)) (k : Nat) : Option String :=
  (tbl.find? (fun p => p.1 == k)).map (fun p => p.2)

/-- Detail record attached to a component: the video variant models the
`COMPONENT_TYPE_VIDEO` dictionaries (resolution, aspect, pan_vector), the
audio variant the `COMPONENT_TYPE_AUDIO` dictionaries (mode, sampling,
quality).  A missing or empty `details` dictionary is modelled as `none`
at the use sites. -/
inductive ComponentDetails where
  | video (resolution aspect : String) (pan_vector : Bool)
  | audio (mode sampling quality : String)
deriving DecidableEq

/-- Embeds the `COMPONENT_TYPE_VIDEO` dictionary. -/
def COMPONENT_TYPE_VIDEO : Nat → Option ComponentDetails
  | 0x01 => some (.video "480i (525i)" "4:3" false)
  | 0x02 => some (.video "480i (525i)" "16:9" true)
  | 0x03 => some (.video "480i (525i)" "16:9" false)
  | 0x04 => some (.video "480i (525i)" "> 16:9" false)
  | 0x83 => some (.video "4320p" "16:9" false)
  | 0x91 => some (.video "2160p" "16:9" false)
  | 0x92 => some (.video "2160p" "16:9" false)
  | 0x93 => some (.video "2160p" "16:9" false)
  | 0x94 => some (.video "2160p" "16:9" false)
  | 0xA1 => some (.video "480p (525p)" "4:3" false)
  | 0xA2 => some (.video "480p (525p)" "16:9" true)
  | 0xA3 => some (.video "480p (525p)" "16:9" false)
  | 0xA4 => some (.video "480p (525p)" "> 16:9" false)
  | 0xB1 => some (.video "1080i (1125i)" "4:3" false)
  | 0xB2 => some (.video "1080i (1125i)" "16:9" true)
  | 0xB3 => some (.video "1080i (1125i)" "16:9" false)
  | 0xB4 => some (.video "1080i (1125i)" "> 16:9" false)
  | 0xC1 => some (.video "720p (750p)" "4:3" false)
  | 0xC2 => some (.video "720p (750p)" "16:9" true)
  | 0xC3 => some (.video "720p (750p)" "16:9" false)
  | 0xC4 => some (.video "720p (750p)" "> 16:9" false)
  | 0xD1 => some (.video "240p" "4:3" false)
  | 0xD2 => some (.video "240p" "16:9" true)
  | 0xD3 => some (.video "240p" "16:9" false)
  | 0xD4 => some (.video "240p" "> 16:9" false)
  | 0xE1 => some (.video "1080p (1125p)" "4:3" false)
  | 0xE2 => some (.video "1080p (1125p)" "16:9" true)
  | 0xE3 => some (.video "1080p (1125p)" "16:9" false)
  | 0xE4 => some (.video "1080p (1125p)" "> 16:9" false)
  | 0xF1 => some (.video "180p" "4:3" false)
  | 0xF2 => some (.video "180p" "16:9" true)
  | 0xF3 => some (.video "180p" "16:9" false)
  | 0xF4 => some (.video "180p" "> 16:9" false)
  | _ => none

/-- Embeds the `COMPONENT_TYPE_AUDIO` dictionary. -/
def COMPONENT_TYPE_AUDIO : Nat → Option ComponentDetails
  | 0x01 => some (.audio "1/0モード（シングルモノ）" "48kHz" "モード1")
  | 0x02 => some (.audio "1/0モード（デュアルモノ）" "48kHz" "モード1")
  | 0x03 => some (.audio "2/0モード（ステレオ）" "48kHz" "モード1")
  | 0x04 => some (.audio "2/1モード" "48kHz" "モード1")
  | 0x05 => some (.audio "3/0モード" "48kHz" "モード1")
  | 0x06 => some (.audio "2/2モード" "48kHz" "モード1")
  | 0x07 => some (.audio "3/1モード" "48kHz" "モード1")
  | 0x08 => some (.audio "3/2モード" "48kHz" "モード1")
  | 0x09 => some (.audio "3/2+LFEモード" "48kHz" "モード1")
  | 0x0A => some (.audio "3/3.1モード" "48kHz" "モード1")
  | 0x0B => some (.audio "2/0/0-2/0/2-0.1モード" "48kHz" "モード1")
  | 0x0C => some (.audio "5/2.1モード" "48kHz" "モード1")
  | 0x0D => some (.audio "3/2/2.1モード" "48kHz" "モード1")
  | 0x0E => some (.audio "2/0/0-3/0/2-0.1モード" "48kHz" "モード1")
  | 0x0F => some (.audio "0/2/0-3/0/2-0.1モード" "48kHz" "モード1")
  | 0x10 => some (.audio "2/0/0-3/2/3-0.2モード" "48kHz" "モード1")
  | 0x11 => some (.audio "3/3/3-5/2/3-3/0/0.2モード" "48kHz" "モード1")
  | 0x40 => some (.audio "視覚障害者用音声解説" "48kHz" "モード1")
  | 0x41 => some (.audio "聴覚障害者用音声" "48kHz" "モード1")
  | _ => none

/-- Embeds the `sampling_rate_map` dictionary inside
`parse_audio_component_descriptor`. -/
def sampling_rate_map : Nat → Option String
  | 0b001 => some "16kHz"
  | 0b010 => some "22.05kHz"
  | 0b011 => some "24kHz"
  | 0b101 => some "32kHz"
  | 0b110 => some "44.1kHz"
  | 0b111 => some "48kHz"
  | _ => none

/-! ## Structured results of the descriptor decoders -/

/-- One genre entry produced by `parse_content_descriptor`.  The Python
dictionary has `large_code`/`large_name` always and
`middle_code`/`middle_name` optionally; the optional pair is `middle`. -/
structure GenreInfo where
  large_code : Nat
  large_name : String
  middle : Option (Nat × String)
deriving DecidableEq

/-- Result of a component-descriptor decoder.  `empty` models the empty
dictionary returned on undersized input; `basic` models the dictionary
built by `parse_component_descriptor`; `audio` the one built by
`parse_audio_component_descriptor` (whose `details` key always exists but
may hold an empty dictionary, modelled as `none`). -/
inductive ComponentResult where
  | empty
  | basic (stream_content component_type component_tag : Nat)
      (language text : String) (details : Option ComponentDetails)
  | audio (stream_content component_type component_tag stream_type : Nat)
      (language sampling_rate : String) (main_component : Bool)
      (text : String) (details : Option ComponentDetails)
deriving DecidableEq

/-- Models `bytes.decode("ascii", errors="ignore")`: keep bytes below
128 as characters, drop the rest. -/
def asciiDecodeIgnore (l : List Nat) : String :=
  String.mk (l.filterMap (fun b => if b < 128 then some (Char.ofNat b) else none))

/-! ## Descriptor parsers -/

/-- Embeds `DescriptorParser.parse_short_event_descriptor` (tag 0x4D).
Result: (event_name, text). -/
def parse_short_event_descriptor (dec : List Nat → String) (data : List Nat) :
    String × String :=
  if data.length < 4 then ("", "")
  else
    let event_name_length := data.getD 3 0
    let event_name_bytes := (data.drop 4).take event_name_length
    let offset := 4 + event_name_length
    if offset ≥ data.length then ("", "")
    else
      let text_length := data.getD offset 0
      let text_bytes := (data.drop (offset + 1)).take text_length
      (dec event_name_bytes, dec text_bytes)

/-- Embeds `DescriptorParser.parse_extended_event_descriptor_raw`
(tag 0x4E).  Result: raw (item_bytes, text_bytes). -/
def parse_extended_event_descriptor_raw (data : List Nat) : List Nat × List Nat :=
  if data.length < 6 then ([], [])
  else
    let item_len := data.getD 4 0
    let item_bytes := (data.drop 5).take item_len
    let offset := 5 + item_len
    let text_len := if offset < data.length then data.getD offset 0 else 0
    let text_bytes := if text_len > 0 then (data.drop (offset + 1)).take text_len else []
    (item_bytes, text_bytes)

/-- Models `item_list[-1][1] += content_bytes`: append extra content bytes
to the last collected item.  Only called on a non-empty list. -/
def appendLast : List (List Nat × List Nat) → List Nat → List (List Nat × List Nat)
  | [], _ => []
  | [(n, c)], extra => [(n, c ++ extra)]
  | p :: ps, extra => p :: appendLast ps extra

/-- Fuel-indexed body of the item-tuple collection loop of
`DescriptorParser.decode_combined_extended_info`.  Each loop iteration
consumes at least two payload bytes, so any fuel of at least the payload
length makes the fuel-exhaustion branch unreachable (`collectItems_go_congr`
below proves the result does not depend on such a fuel). -/
def collectItems_go : Nat → List Nat → List (List Nat × List Nat) →
    List (List Nat × List Nat)
  | 0, _, acc => acc
  | _ + 1, [], acc => acc
  | fuel + 1, name_len :: rest, acc =>
    let name_bytes := rest.take name_len
    match rest.drop name_len with
    | [] => acc
    | content_len :: rest3 =>
      let content_bytes := rest3.take content_len
      let rest4 := rest3.drop content_len
      collectItems_go fuel rest4
        (if name_len > 0 ∨ acc = [] then acc ++ [(name_bytes, content_bytes)]
         else appendLast acc content_bytes)

/-- Embeds the item-tuple collection loop of
`DescriptorParser.decode_combined_extended_info`: read a name-length byte,
the name, a content-length byte and the content; a tuple whose name length
is zero and that is not the first tuple is merged into the previous item;
a tuple truncated after its name stops the loop. -/
def collectItems (item_payload : List Nat) (acc : List (List Nat × List Nat)) :
    List (List Nat × List Nat) :=
  collectItems_go item_payload.length item_payload acc

/-- Rendering of one collected item inside `decode_combined_extended_info`:
`"[name]\n" + content` when the decoded name is non-empty, otherwise the
bare decoded content. -/
def renderEntry (dec : List Nat → String) (nc : List Nat × List Nat) : String :=
  let n_str := dec nc.1
  let c_str := dec nc.2
  if n_str ≠ "" then "[" ++ n_str ++ "]\n" ++ c_str else c_str

/-- Embeds `DescriptorParser.decode_combined_extended_info`: collect item
tuples, render each, append the decoded text part when it decodes to a
non-empty string, and join with newlines. -/
def decode_combined_extended_info (dec : List Nat → String)
    (item_payload text_payload : List Nat) : String :=
  let item_list := collectItems item_payload []
  let results := item_list.map (renderEntry dec)
  let results2 :=
    if text_payload ≠ [] then
      let t_str := dec text_payload
      if t_str ≠ "" then results ++ [t_str] else results
    else results
  String.intercalate "\n" results2

/-- Embeds `DescriptorParser.parse_component_descriptor` (tag 0x50).
The `details` dictionary is non-empty exactly when the stream content
selects a table containing the component type; the `details` key is put in
the result only in that case, modelled by `Option`. -/
def parse_component_descriptor (dec : List Nat → String) (data : List Nat) :
    ComponentResult :=
  if data.length < 6 then .empty
  else
    let stream_content := data.getD 0 0 &&& 0x0F
    let component_type := data.getD 1 0
    let component_tag := data.getD 2 0
    let language_code := asciiDecodeIgnore ((data.drop 3).take 3)
    let text := if data.length > 6 then dec (data.drop 6) else ""
    let details : Option ComponentDetails :=
      if stream_content = 0x01 then COMPONENT_TYPE_VIDEO component_type
      else if stream_content = 0x02 then COMPONENT_TYPE_AUDIO component_type
      else none
    .basic stream_content component_type component_tag language_code text details

/-- Replaces the `sampling` field of an audio detail record, modelling
`details["sampling"] = sampling_rate_text`. -/
def setAudioSampling : ComponentDetails → String → ComponentDetails
  | .audio mode _ quality, s => .audio mode s quality
  | d, _ => d

/-- Embeds `DescriptorParser.parse_audio_component_descriptor` (tag 0xC4).
The source also reads `simulcast_group_tag` (byte 4) and
`quality_indicator` (bits 4-5 of byte 5) but returns neither.  The result
dictionary always carries a `details` key; an empty `details` dictionary
is modelled as `none`. -/
def parse_audio_component_descriptor (dec : List Nat → String) (data : List Nat) :
    ComponentResult :=
  if data.length < 9 then .empty
  else
    let stream_content := data.getD 0 0 &&& 0x0F
    let component_type := data.getD 1 0
    let component_tag := data.getD 2 0
    let stream_type := data.getD 3 0
    let ES_multi_lingual_flag := (data.getD 5 0 &&& 0x80) != 0
    let main_component_flag := (data.getD 5 0 &&& 0x40) != 0
    let sampling_rate := (data.getD 5 0 &&& 0x0E) >>> 1
    let language_code := asciiDecodeIgnore ((data.drop 6).take 3)
    let offset := 9 + (if ES_multi_lingual_flag then 3 else 0)
    let text := if data.length > offset then dec (data.drop offset) else ""
    let sampling_rate_text := (sampling_rate_map sampling_rate).getD "不明"
    let details : Option ComponentDetails :=
      if stream_content = 0x02 then
        ( COMPONENT_TYPE_AUDIO component_type).map
          (fun d => setAudioSampling d sampling_rate_text)
      else none
    .audio stream_content component_type component_tag stream_type
      language_code sampling_rate_text main_component_flag text details

/-- Embeds `DescriptorParser.parse_content_descriptor` (tag 0x54): iterate
2-byte entries; the first byte holds the large category in its high nibble
and the middle category in its low nibble, the second byte is unused.  The
middle pair is attached when the large code has a sub-table (the looked-up
name defaults to 不明 and is never the empty string). -/
def parse_content_descriptor : List Nat → List GenreInfo
  | b0 :: _ :: rest =>
    let content_nibble_level_1 := (b0 >>> 4) &&& 0x0F
    let content_nibble_level_2 := b0 &&& 0x0F
    let large_name := (ARIB_GENRE_LARGE content_nibble_level_1).getD "不明"
    let middle : Option (Nat × String) :=
      match ARIB_GENRE_MIDDLE content_nibble_level_1 with
      | some tbl =>
        let middle_name := (tableGet tbl content_nibble_level_2).getD "不明"
        if middle_name ≠ "" then some (content_nibble_level_2, middle_name) else none
      | none => none
    ⟨content_nibble_level_1, large_name, middle⟩ :: parse_content_descriptor rest
  | _ => []

/-! ## EIT parser (EITParser.parse_eit_section) -/

/-- One decoded event entry, modelling the tuple
`(event_id, start_time, duration_min, title, description, extended_info,
genres, components)` appended by `parse_eit_section`. -/
structure EventTuple where
  event_id : Nat
  start_time : Option PyDateTime
  duration_min : Nat
  title : String
  description : String
  extended_info : String
  genres : List GenreInfo
  components : List ComponentResult
deriving DecidableEq

/-- Python dictionary assignment `d[k] = v` on a dictionary modelled as an
association list in insertion order: replace in place when the key exists,
append at the end otherwise. -/
def dictSet (d : List (Nat × List Nat)) (k : Nat) (v : List Nat) :
    List (Nat × List Nat) :=
  if d.any (fun p => p.1 == k) then d.map (fun p => if p.1 == k then (k, v) else p)
  else d ++ [(k, v)]

/-- Python dictionary read `d[k]` for a key known to be present. -/
def dictLookup (d : List (Nat × List Nat)) (k : Nat) : List Nat :=
  ((d.find? (fun p => p.1 == k)).map (fun p => p.2)).getD []

/-- Models `b"".join(d[k] for k in sorted(d.keys()))` for the raw-fragment
dictionaries of `parse_eit_section`.  Every key stored there is a
descriptor number `(byte >> 4) & 0x0F`, hence below 16, so filtering
`range 16` enumerates exactly `sorted(d.keys())`. -/
def sortedKeysJoin (d : List (Nat × List Nat)) : List Nat :=
  (((List.range 16).filter (fun k => d.any (fun p => p.1 == k))).map
    (fun k => dictLookup d k)).join

/-- Mutable state of the descriptor loop of `parse_eit_section` for one
event entry. -/
structure EitDescState where
  title : String
  description : String
  ext_items_raw : List (Nat × List Nat)
  ext_texts_raw : List (Nat × List Nat)
  genres : List GenreInfo
  components : List ComponentResult
deriving DecidableEq

/-- Fuel-indexed body of the descriptor loop of `parse_eit_section`
(`while offset + 2 <= desc_end`).  Each iteration advances `offset` by at
least 2, so any fuel of at least `desc_end - offset` makes the
fuel-exhaustion branch unreachable.  `none` models the uncaught
`IndexError` raised by `desc_data[0]` when an extended-event descriptor
(tag 0x4E) has an empty data slice. -/
def eitDescLoop_go (dec : List Nat → String) (section_data : List Nat)
    (desc_end : Nat) : Nat → Nat → EitDescState → Option EitDescState
  | 0, _, st => some st
  | fuel + 1, offset, st =>
    if offset + 2 ≤ desc_end then
      let desc_tag := section_data.getD offset 0
      let desc_length := section_data.getD (offset + 1) 0
      let desc_data := (section_data.drop (offset + 2)).take desc_length
      let next := offset + 2 + desc_length
      if desc_tag = 0x4D then
        let td := parse_short_event_descriptor dec desc_data
        eitDescLoop_go dec section_data desc_end fuel next
          { st with title := td.1, description := td.2 }
      else if desc_tag = 0x4E then
        match desc_data with
        | [] => none
        | d0 :: _ =>
          let desc_num := (d0 >>> 4) &&& 0x0F
          let ib_tb := parse_extended_event_descriptor_raw desc_data
          eitDescLoop_go dec section_data desc_end fuel next
            { st with
              ext_items_raw := dictSet st.ext_items_raw desc_num ib_tb.1,
              ext_texts_raw := dictSet st.ext_texts_raw desc_num ib_tb.2 }
      else if desc_tag = 0x54 then
        eitDescLoop_go dec section_data desc_end fuel next
          { st with genres := parse_content_descriptor desc_data }
      else if desc_tag = 0x50 then
        eitDescLoop_go dec section_data desc_end fuel next
          { st with components := st.components ++ [parse_component_descriptor dec desc_data] }
      else if desc_tag = 0xC4 then
        eitDescLoop_go dec section_data desc_end fuel next
          { st with components := st.components ++ [parse_audio_component_descriptor dec desc_data] }
      else
        eitDescLoop_go dec section_data desc_end fuel next st
    else some st

/-- Embeds the descriptor loop of `parse_eit_section` for one event entry,
starting at `offset` and running to `desc_end`. -/
def eitDescLoop (dec : List Nat → String) (section_data : List Nat)
    (desc_end offset : Nat) (st : EitDescState) : Option EitDescState :=
  eitDescLoop_go dec section_data desc_end desc_end offset st

/-- Fuel-indexed body of the event loop of `parse_eit_section`
(`while offset + 12 <= len(section_data) - 4`).  Each iteration advances
`offset` by at least 12, so any fuel of at least
`section_data.length - 4 - offset` makes the fuel-exhaustion branch
unreachable. -/
def eitEventLoop_go (dec : List Nat → String) (section_data : List Nat) :
    Nat → Nat → List EventTuple → Option (List EventTuple)
  | 0, _, acc => some acc
  | fuel + 1, offset, acc =>
    if offset + 12 ≤ section_data.length - 4 then
      let event_id := (section_data.getD offset 0) <<< 8 ||| section_data.getD (offset + 1) 0
      let start_mjd :=
        (section_data.getD (offset + 2) 0) <<< 8 ||| section_data.getD (offset + 3) 0
      let start_time :=
        mjd_to_datetime start_mjd (section_data.getD (offset + 4) 0)
          (section_data.getD (offset + 5) 0) (section_data.getD (offset + 6) 0)
      let duration_bcd := (section_data.drop (offset + 7)).take 3
      let duration_min :=
        bcd_to_decimal (duration_bcd.getD 0 0) * 60 + bcd_to_decimal (duration_bcd.getD 1 0)
      let descriptors_loop_length :=
        ((section_data.getD (offset + 10) 0 &&& 0x0F) <<< 8) ||| section_data.getD (offset + 11) 0
      let desc_end := offset + 12 + descriptors_loop_length
      match eitDescLoop dec section_data desc_end (offset + 12) ⟨"", "", [], [], [], []⟩ with
      | none => none
      | some st =>
        let combined_items := sortedKeysJoin st.ext_items_raw
        let combined_texts := sortedKeysJoin st.ext_texts_raw
        let extended_info := decode_combined_extended_info dec combined_items combined_texts
        eitEventLoop_go dec section_data fuel desc_end
          (acc ++ [⟨event_id, start_time, duration_min, st.title, st.description,
                    extended_info, st.genres, st.components⟩])
    else some acc

/-- Embeds the event loop of `parse_eit_section`, accumulating decoded
events in section order. -/
def eitEventLoop (dec : List Nat → String) (section_data : List Nat)
    (offset : Nat) (acc : List EventTuple) : Option (List EventTuple) :=
  eitEventLoop_go dec section_data section_data.length offset acc

/-- Embeds `EITParser.parse_eit_section`.  `none` models an uncaught
exception escaping the parser. -/
def parse_eit_section (dec : List Nat → String) (section_data : List Nat) :
    Option (List EventTuple) :=
  if section_data.length < 14 then some []
  else eitEventLoop dec section_data 14 []

/-! ## SectionCollector -/

/-- The collector state `self.buffers`: a Python dictionary from
`(pid, table_id)` to a growable byte buffer, in insertion order. -/
abbrev Buffers := List ((Nat × Nat) × List Nat)

/-- Total length of the section at the head of a buffer:
`(((buf[1] & 0x0F) << 8) | buf[2]) + 3` (declared length plus the 3 header
bytes), as computed by `_extract_from_buffer`. -/
def sectionTotal (buf : List Nat) : Nat :=
  (((buf.getD 1 0) &&& 0x0F) <<< 8 ||| buf.getD 2 0) + 3

/-- Fuel-indexed body of `SectionCollector._extract_from_buffer`.  Each
loop iteration removes at least three buffer bytes, so any fuel of at
least the buffer length makes the fuel-exhaustion branch unreachable. -/
def extract_go : Nat → List Nat → List (List Nat) × List Nat
  | 0, buf => ([], buf)
  | fuel + 1, buf =>
    if 3 ≤ buf.length then
      let total_len := sectionTotal buf
      if total_len ≤ buf.length then
        let rest := (buf.drop total_len).dropWhile (fun b => b == 0xFF)
        let res := extract_go fuel rest
        (buf.take total_len :: res.1, res.2)
      else ([], buf)
    else ([], buf)

/-- Embeds `SectionCollector._extract_from_buffer`: repeatedly emit the
leading `sectionTotal` bytes while the buffer holds a complete section,
dropping any 0xFF stuffing bytes left at the head after each emission.
Returns the emitted sections in order together with the final buffer. -/
def extract_from_buffer (buf : List Nat) : List (List Nat) × List Nat :=
  extract_go buf.length buf

/-- Embeds the two `for (p, tid), buf in self.buffers.items()` loops of
`add_packet`: append `payload` to every non-empty buffer whose pid
matches, draining each, in dictionary (insertion) order.  Returns the new
buffers and the emitted sections in iteration order. -/
def processPidBuffers (buffers : Buffers) (pid : Nat) (payload : List Nat) :
    Buffers × List (List Nat) :=
  let processed := buffers.map (fun kb =>
    if kb.1.1 = pid ∧ kb.2 ≠ [] then
      let res := extract_from_buffer (kb.2 ++ payload)
      ((kb.1, res.2), res.1)
    else (kb, []))
  (processed.map (fun x => x.1), (processed.map (fun x => x.2)).join)

/-- Embeds lines `if key not in self.buffers: ... extend ... extract` of
`add_packet`: create the keyed buffer when absent (appended at the end, as
Python dictionary insertion does), extend it with `data`, and drain it. -/
def extendAndExtract : Buffers → Nat × Nat → List Nat → Buffers × List (List Nat)
  | [], key, data =>
    let res := extract_from_buffer data
    ([(key, res.2)], res.1)
  | kb :: rest, key, data =>
    if kb.1 = key then
      let res := extract_from_buffer (kb.2 ++ data)
      ((key, res.2) :: rest, res.1)
    else
      let r := extendAndExtract rest key data
      (kb :: r.1, r.2)

/-- Embeds `SectionCollector.add_packet`.  Returns the complete sections
extracted because of this packet (in emission order) and the new collector
state. -/
def add_packet (buffers : Buffers) (packet : List Nat) : List (List Nat) × Buffers :=
  let pid := get_pid packet
  let offset := get_payload_offset packet
  if offset ≥ packet.length then ([], buffers)
  else
    let payload := packet.drop offset
    if has_payload_start packet then
      let pointer_field := payload.getD 0 0
      let step1 :=
        if pointer_field > 0 ∧ buffers.any (fun kb => kb.1.1 == pid) then
          let pref := (payload.drop 1).take pointer_field
          processPidBuffers buffers pid pref
        else (buffers, [])
      let new_section_data := payload.drop (1 + pointer_field)
      if 3 ≤ new_section_data.length then
        let table_id := new_section_data.getD 0 0
        let step2 := extendAndExtract step1.1 (pid, table_id) new_section_data
        (step1.2 ++ step2.2, step2.1)
      else (step1.2, step1.1)
    else
      let res := processPidBuffers buffers pid payload
      (res.2, res.1)

/-- Feed a packet list to one `SectionCollector` in order (as the scan loop
in `main` does), concatenating the emitted sections. -/
def runCollector (buffers : Buffers) (packets : List (List Nat)) :
    List (List Nat) × Buffers :=
  packets.foldl (fun acc p =>
    let res := add_packet acc.2 p
    (acc.1 ++ res.1, res.2)) ([], buffers)

/-! ## Event deduplication (main, lines 1019-1026) -/

/-- Embeds the deduplication loop of `main`: a `seen_event_ids` set (here a
list queried by membership) and a `unique_events` list grown by appending. -/
def dedupEvents (events : List EventTuple) : List EventTuple :=
  (events.foldl (fun st event =>
    if st.1.contains event.event_id then st
    else (event.event_id :: st.1, st.2 ++ [event]))
    (([] : List Nat), ([] : List EventTuple))).2

/-- Recursive reformulation of `dedupEvents` used by the proofs: keep an
event iff its id is not in `seen`, extending `seen` as events are kept. -/
def dedupAux (seen : List Nat) : List EventTuple → List EventTuple
  | [] => []
  | e :: es =>
    if seen.contains e.event_id then dedupAux seen es
    else e :: dedupAux (e.event_id :: seen) es

/-! ## Claim-side constructions (test fixtures and specification-worded
definitions used to state the claims) -/

/-- Builds one 188-byte transport packet around a given payload: sync byte
0x47, the 13-bit pid split over bytes 1-2, the unit-start flag in bit 6 of
byte 1, and, when the payload is shorter than 184 bytes, an adaptation
field of 0x00 filler sized so the payload ends exactly at byte 187. -/
def mkPacket (start : Bool) (pid : Nat) (payload : List Nat) : List Nat :=
  let b1 := (if start then 0x40 else 0) + pid / 256
  let b2 := pid % 256
  if payload.length = 184 then 0x47 :: b1 :: b2 :: 0x10 :: payload
  else
    0x47 :: b1 :: b2 :: 0x30 :: (183 - payload.length) ::
      (List.replicate (183 - payload.length) 0 ++ payload)

/-- The dictionary-building step of `parse_eit_section` for one
extended-event fragment `(desc_num, item_bytes, text_bytes)`. -/
def extDictsInsert (st : List (Nat × List Nat) × List (Nat × List Nat))
    (t : Nat × List Nat × List Nat) :
    List (Nat × List Nat) × List (Nat × List Nat) :=
  (dictSet st.1 t.1 t.2.1, dictSet st.2 t.1 t.2.2)

/-- The combined raw item and text byte strings that `parse_eit_section`
produces from a sequence of extended-event fragments
`(desc_num, item_bytes, text_bytes)` in arrival order: build the two
dictionaries, then join values by ascending key. -/
def extCombine (l : List (Nat × List Nat × List Nat)) : List Nat × List Nat :=
  let dicts := l.foldl extDictsInsert ([], [])
  (sortedKeysJoin dicts.1, sortedKeysJoin dicts.2)

/-- Canonical byte encoding of a list of (name, content) item tuples, as
laid out in the extended-event item byte stream: a name-length byte, the
name, a content-length byte, the content, repeated. -/
def encodeItems : List (List Nat × List Nat) → List Nat
  | [] => []
  | (n, c) :: ts => (n.length :: n) ++ (c.length :: c) ++ encodeItems ts

/-- Specification-worded merge rule for item tuples (spec section 4.6): a
tuple whose name length is zero and that is not the first tuple appends
its content to the previous entry; every other tuple starts a new entry. -/
def mergeSpec (ts : List (List Nat × List Nat)) : List (List Nat × List Nat) :=
  ts.foldl (fun acc nc =>
    if nc.1.length > 0 ∨ acc = [] then acc ++ [nc] else appendLast acc nc.2) []

/-- A concrete text-decoding capability used by counterexamples: decodes
the byte string `[1]` to "A" and everything else to the empty string.
This satisfies the external decoder contract of spec section 6 (empty
input gives empty output, never raises, best effort possibly empty). -/
def decZero (l : List Nat) : String :=
  if l = [1] then "A" else ""

/-- The malformed event-information section used to exhibit the crash in
`parse_eit_section`: a 30-byte section whose single event entry carries a
descriptor loop of length 2 holding one extended-event descriptor
(tag 0x4E) with declared length 0. -/
def eitCrashSection : List Nat :=
  [0x4E, 0xF0, 0x1B, 0x00, 0x01, 0x00, 0x00, 0x00, 0x00, 0x00,
   0x00, 0x00, 0x00, 0x00,
   0x00, 0x01, 0x00, 0x00, 0x00, 0x00, 0x00, 0x00, 0x00, 0x00, 0x00, 0x02,
   0x4E, 0x00,
   0x00, 0x00]

/-! ## Helper lemmas: bitwise arithmetic -/

theorem shl8_lor_eq_add (a b : Nat) (hb : b < 256) : (a <<< 8) ||| b = a * 256 + b := by
  apply Nat.eq_of_testBit_eq
  intro j
  have hb8 : b < 2 ^ 8 := by simpa using hb
  rw [Nat.testBit_lor, Nat.testBit_shiftLeft]
  have h : a * 256 + b = 2 ^ 8 * a + b := by ring
  rw [h, Nat.testBit_mul_pow_two_add a hb8 j]
  by_cases hj : j < 8
  · simp [hj, Nat.not_le.mpr hj]
  · have hbj : b.testBit j = false := by
      apply Nat.testBit_lt_two_pow
      exact lt_of_lt_of_le hb8 (Nat.pow_le_pow_right (by norm_num) (le_of_not_lt hj))
    simp [hj, hbj, le_of_not_lt hj]

theorem and_31_eq_mod (x : Nat) : x &&& 31 = x % 32 := by
  have h := Nat.and_pow_two_sub_one_eq_mod x 5
  norm_num at h
  exact h

theorem and_64_of_flag (x : Nat) (hx : x < 32) : (64 + x) &&& 64 = 64 := by
  have h2 : (64 + x).testBit 6 = true := by
    rw [Nat.testBit_to_div_mod]
    simp only [show (2 : Nat) ^ 6 = 64 from rfl, decide_eq_true_eq]
    omega
  have h1 : (64 + x) &&& 64 = ((64 + x).testBit 6).toNat * 64 := by
    simpa using Nat.and_two_pow (64 + x) 6
  rw [h1, h2]
  norm_num

theorem and_64_of_no_flag (x : Nat) (hx : x < 64) : x &&& 64 = 0 := by
  have h2 : x.testBit 6 = false := by
    rw [Nat.testBit_to_div_mod]
    simp only [show (2 : Nat) ^ 6 = 64 from rfl, decide_eq_false_iff_not]
    omega
  have h1 : x &&& 64 = (x.testBit 6).toNat * 64 := by
    simpa using Nat.and_two_pow x 6
  rw [h1, h2]
  norm_num

/-! ## Helper lemmas: mkPacket framing -/

theorem mkPacket_length (start : Bool) (pid : Nat) (payload : List Nat)
    (h : payload.length ≤ 184) : (mkPacket start pid payload).length = 188 := by
  unfold mkPacket
  by_cases h184 : payload.length = 184
  · simp [h184]
  · simp only [h184, if_false]
    simp [List.length_append, List.length_replicate]
    omega

theorem mkPacket_getD_one (start : Bool) (pid : Nat) (payload : List Nat) :
    (mkPacket start pid payload).getD 1 0 = (if start then 0x40 else 0) + pid / 256 := by
  unfold mkPacket
  by_cases h184 : payload.length = 184 <;> simp [h184]

theorem mkPacket_getD_two (start : Bool) (pid : Nat) (payload : List Nat) :
    (mkPacket start pid payload).getD 2 0 = pid % 256 := by
  unfold mkPacket
  by_cases h184 : payload.length = 184 <;> simp [h184]

theorem get_pid_mkPacket (start : Bool) (pid : Nat) (payload : List Nat)
    (hpid : pid < 8192) : get_pid (mkPacket start pid payload) = pid := by
  unfold get_pid
  rw [mkPacket_getD_one, mkPacket_getD_two]
  have hdiv : pid / 256 < 32 := by omega
  have hand : ((if start then 0x40 else 0) + pid / 256) &&& 0x1F = pid / 256 := by
    rw [show (0x1F : Nat) = 31 from rfl, and_31_eq_mod]
    cases start <;> simp <;> omega
  rw [hand, shl8_lor_eq_add _ _ (by omega)]
  omega

theorem has_payload_start_mkPacket (start : Bool) (pid : Nat) (payload : List Nat)
    (hpid : pid < 8192) : has_payload_start (mkPacket start pid payload) = start := by
  unfold has_payload_start
  rw [mkPacket_getD_one]
  have hdiv : pid / 256 < 32 := by omega
  cases start
  · have h0 : (if (false : Bool) = true then (0x40 : Nat) else 0) + pid / 256 = pid / 256 := by
      simp
    rw [h0, show (0x40 : Nat) = 64 from rfl, and_64_of_no_flag _ (by omega)]
    simp
  · have h0 : (if (true : Bool) = true then (0x40 : Nat) else 0) + pid / 256 = 64 + pid / 256 := by
      simp
    rw [h0, show (0x40 : Nat) = 64 from rfl, and_64_of_flag _ hdiv]
    simp

theorem get_payload_offset_mkPacket (start : Bool) (pid : Nat) (payload : List Nat)
    (h : payload.length ≤ 184) :
    get_payload_offset (mkPacket start pid payload) = 188 - payload.length := by
  unfold get_payload_offset has_adaptation_field mkPacket
  by_cases h184 : payload.length = 184
  · simp [h184]
    decide
  · simp only [h184, if_false]
    simp
    omega

theorem drop_offset_mkPacket (start : Bool) (pid : Nat) (payload : List Nat)
    (h : payload.length ≤ 184) :
    (mkPacket start pid payload).drop (get_payload_offset (mkPacket start pid payload)) =
      payload := by
  rw [get_payload_offset_mkPacket start pid payload h]
  unfold mkPacket
  by_cases h184 : payload.length = 184
  · simp [h184]
  · simp only [h184, if_false]
    have hle : payload.length ≤ 183 := by omega
    have hassoc : (0x47 :: ((if start then 0x40 else 0) + pid / 256) :: pid % 256 :: 0x30 ::
        (183 - payload.length) :: (List.replicate (183 - payload.length) 0 ++ payload)) =
        (([0x47, (if start then 0x40 else 0) + pid / 256, pid % 256, 0x30,
          183 - payload.length] ++ List.replicate (183 - payload.length) 0) ++ payload) := by
      simp
    rw [hassoc]
    apply List.drop_left'
    simp
    omega

/-! ## Helper lemmas: buffer draining -/

theorem extract_go_congr : ∀ (f1 f2 : Nat) (buf : List Nat),
    buf.length ≤ f1 → buf.length ≤ f2 → extract_go f1 buf = extract_go f2 buf := by
  intro f1
  induction f1 with
  | zero =>
    intro f2 buf h1 h2
    have hnil : buf = [] := List.eq_nil_of_length_eq_zero (by omega)
    subst hnil
    cases f2 <;> simp [extract_go]
  | succ n ih =>
    intro f2 buf h1 h2
    cases f2 with
    | zero =>
      have hnil : buf = [] := List.eq_nil_of_length_eq_zero (by omega)
      subst hnil
      simp [extract_go]
    | succ m =>
      simp only [extract_go]
      by_cases h3 : 3 ≤ buf.length
      · by_cases htot : sectionTotal buf ≤ buf.length
        · simp only [if_pos h3, if_pos htot]
          have hdw : ∀ l : List Nat, (l.dropWhile (fun b => b == 0xFF)).length ≤ l.length :=
            fun l => (List.dropWhile_sublist _).length_le
          have hrest : ((buf.drop (sectionTotal buf)).dropWhile
              (fun b => b == 0xFF)).length ≤ buf.length - 3 := by
            have := hdw (buf.drop (sectionTotal buf))
            rw [List.length_drop] at this
            have h33 : 3 ≤ sectionTotal buf := by unfold sectionTotal; omega
            omega
          have heq := ih m ((buf.drop (sectionTotal buf)).dropWhile (fun b => b == 0xFF))
            (by omega) (by omega)
          rw [heq]
        · simp [h3, htot]
      · simp [h3]

theorem extract_from_buffer_eq (buf : List Nat) :
    extract_from_buffer buf =
      if 3 ≤ buf.length then
        if sectionTotal buf ≤ buf.length then
          ((buf.take (sectionTotal buf)) ::
            (extract_from_buffer
              ((buf.drop (sectionTotal buf)).dropWhile (fun b => b == 0xFF))).1,
           (extract_from_buffer
              ((buf.drop (sectionTotal buf)).dropWhile (fun b => b == 0xFF))).2)
        else ([], buf)
      else ([], buf) := by
  have main : ∀ (fuel : Nat) (b : List Nat), b.length ≤ fuel →
      extract_go fuel b =
        if 3 ≤ b.length then
          if sectionTotal b ≤ b.length then
            ((b.take (sectionTotal b)) ::
              (extract_from_buffer
                ((b.drop (sectionTotal b)).dropWhile (fun x => x == 0xFF))).1,
             (extract_from_buffer
                ((b.drop (sectionTotal b)).dropWhile (fun x => x == 0xFF))).2)
          else ([], b)
        else ([], b) := by
    intro fuel
    cases fuel with
    | zero =>
      intro b hb
      have hnil : b = [] := List.eq_nil_of_length_eq_zero (by omega)
      subst hnil
      simp [extract_go]
    | succ m =>
      intro b hb
      simp only [extract_go]
      by_cases h3 : 3 ≤ b.length
      · by_cases htot : sectionTotal b ≤ b.length
        · simp only [if_pos h3, if_pos htot]
          have hdw : ∀ l : List Nat, (l.dropWhile (fun x => x == 0xFF)).length ≤ l.length :=
            fun l => (List.dropWhile_sublist _).length_le
          have hrest : ((b.drop (sectionTotal b)).dropWhile
              (fun x => x == 0xFF)).length ≤ b.length - 3 := by
            have := hdw (b.drop (sectionTotal b))
            rw [List.length_drop] at this
            have h33 : 3 ≤ sectionTotal b := by unfold sectionTotal; omega
            omega
          have heq := extract_go_congr m
            (((b.drop (sectionTotal b)).dropWhile (fun x => x == 0xFF)).length)
            ((b.drop (sectionTotal b)).dropWhile (fun x => x == 0xFF))
            (by omega) (le_refl _)
          rw [extract_from_buffer, heq]
        · simp [h3, htot]
      · simp [h3]
  exact main buf.length buf (le_refl _)

theorem sectionTotal_append (b t : List Nat) (h : 3 ≤ b.length) :
    sectionTotal (b ++ t) = sectionTotal b := by
  unfold sectionTotal
  rw [List.getD_append b t 0 1 (by omega), List.getD_append b t 0 2 (by omega)]

theorem extract_short (buf : List Nat) (h : buf.length < sectionTotal buf) :
    extract_from_buffer buf = ([], buf) := by
  rw [extract_from_buffer_eq]
  by_cases h3 : 3 ≤ buf.length
  · rw [if_pos h3, if_neg (by omega)]
  · rw [if_neg h3]

theorem dropWhile_ff_replicate (k : Nat) (rest : List Nat) :
    (List.replicate k 0xFF ++ rest).dropWhile (fun b => b == 0xFF) =
      rest.dropWhile (fun b => b == 0xFF) := by
  induction k with
  | zero => simp
  | succ n ih => simpa [List.replicate_succ, List.dropWhile_cons] using ih

theorem dropWhile_ff_of_head (rest : List Nat) (h : rest.head? ≠ some 0xFF) :
    rest.dropWhile (fun b => b == 0xFF) = rest := by
  cases rest with
  | nil => simp
  | cons a l =>
    have ha : a ≠ 0xFF := by
      intro hc
      exact h (by simp [hc])
    simp [List.dropWhile_cons, ha]

theorem extract_section_front (S rest : List Nat) (k : Nat)
    (hw : sectionTotal S = S.length) (hrest : rest.head? ≠ some 0xFF) :
    extract_from_buffer (S ++ List.replicate k 0xFF ++ rest) =
      (S :: (extract_from_buffer rest).1, (extract_from_buffer rest).2) := by
  have hS3 : 3 ≤ S.length := by unfold sectionTotal at hw; omega
  rw [extract_from_buffer_eq, List.append_assoc]
  have htot : sectionTotal (S ++ (List.replicate k 0xFF ++ rest)) = S.length := by
    rw [sectionTotal_append S _ hS3, hw]
  rw [htot]
  rw [if_pos (by simp; omega), if_pos (by simp)]
  rw [List.take_left' rfl, List.drop_left' rfl]
  rw [dropWhile_ff_replicate, dropWhile_ff_of_head rest hrest]

/-! ## Helper lemmas: running the collector -/

theorem runCollector_aux (ps : List (List Nat)) (st : Buffers) (acc : List (List Nat)) :
    ps.foldl (fun a p =>
      let res := add_packet a.2 p
      (a.1 ++ res.1, res.2)) (acc, st) =
    (acc ++ (runCollector st ps).1, (runCollector st ps).2) := by
  induction ps generalizing st acc with
  | nil => simp [runCollector]
  | cons p ps ih =>
    simp only [runCollector, List.foldl_cons]
    rw [ih, ih]
    simp

theorem runCollector_cons (st : Buffers) (p : List Nat) (ps : List (List Nat)) :
    runCollector st (p :: ps) =
      ((add_packet st p).1 ++ (runCollector (add_packet st p).2 ps).1,
       (runCollector (add_packet st p).2 ps).2) := by
  simp only [runCollector, List.foldl_cons]
  rw [runCollector_aux]
  simp only [runCollector, List.nil_append]

theorem runCollector_nil (st : Buffers) : runCollector st [] = ([], st) := rfl

/-- Dropping the payload offset from an `mkPacket` frame recovers the
payload. -/
theorem drop_188_mkPacket (start : Bool) (pid : Nat) (payload : List Nat)
    (h : payload.length ≤ 184) :
    (mkPacket start pid payload).drop (188 - payload.length) = payload := by
  have hd := drop_offset_mkPacket start pid payload h
  rwa [get_payload_offset_mkPacket start pid payload h] at hd

/-- Behaviour of `add_packet` on a continuation packet built by `mkPacket`
when the collector holds exactly one open buffer for the same pid. -/
theorem add_packet_cont (pid tid : Nat) (b c : List Nat) (hpid : pid < 8192)
    (hc : c ≠ []) (hlen : c.length ≤ 184) (hb : b ≠ []) :
    add_packet [((pid, tid), b)] (mkPacket false pid c) =
      ((extract_from_buffer (b ++ c)).1,
       [((pid, tid), (extract_from_buffer (b ++ c)).2)]) := by
  simp only [add_packet]
  rw [get_pid_mkPacket _ _ _ hpid, get_payload_offset_mkPacket _ _ _ hlen,
    has_payload_start_mkPacket _ _ _ hpid, mkPacket_length _ _ _ hlen,
    drop_188_mkPacket _ _ _ hlen]
  have hclen : 0 < c.length := List.length_pos.mpr hc
  rw [if_neg (by omega)]
  simp [processPidBuffers, hb]

/-- Behaviour of `add_packet` on a unit-start packet built by `mkPacket`
with pointer field zero, fed to an empty collector, when the carried
fragment holds at least 3 bytes. -/
theorem add_packet_start (pid : Nat) (frag : List Nat) (hpid : pid < 8192)
    (hlen : frag.length + 1 ≤ 184) (hfrag3 : 3 ≤ frag.length) :
    add_packet [] (mkPacket true pid (0x00 :: frag)) =
      ((extract_from_buffer frag).1,
       [((pid, frag.getD 0 0), (extract_from_buffer frag).2)]) := by
  have hplen : (0x00 :: frag).length ≤ 184 := by simp; omega
  simp only [add_packet]
  rw [get_pid_mkPacket _ _ _ hpid, get_payload_offset_mkPacket _ _ _ hplen,
    has_payload_start_mkPacket _ _ _ hpid, mkPacket_length _ _ _ hplen,
    drop_188_mkPacket _ _ _ hplen]
  rw [if_neg (by simp; omega)]
  have hptr : (0x00 :: frag).getD 0 0 = 0 := rfl
  rw [hptr]
  have hdrop : (0x00 :: frag).drop (1 + 0) = frag := by simp
  rw [hdrop]
  rw [if_pos hfrag3]
  simp [extendAndExtract]

theorem extract_exact (S : List Nat) (hw : sectionTotal S = S.length) :
    extract_from_buffer S = ([S], []) := by
  have h0 : extract_from_buffer [] = ([], []) := extract_short [] (by decide)
  have h := extract_section_front S [] 0 hw (by simp)
  simp only [List.replicate_zero, List.append_nil, h0] at h
  exact h

theorem runCont (S : List Nat) (pid tid : Nat)
    (hw : sectionTotal S = S.length) (hpid : pid < 8192) :
    ∀ (cs : List (List Nat)) (b : List Nat), 3 ≤ b.length → b.length < S.length →
      b ++ cs.join = S → (∀ c ∈ cs, c ≠ [] ∧ c.length ≤ 184) →
      runCollector [((pid, tid), b)] (cs.map (fun c => mkPacket false pid c)) =
        ([S], [((pid, tid), [])]) := by
  intro cs
  induction cs with
  | nil =>
    intro b h3 hlt hjoin hcs
    simp at hjoin
    rw [hjoin] at hlt
    omega
  | cons c cs ih =>
    intro b h3 hlt hjoin hcs
    obtain ⟨hcne, hclen⟩ := hcs c (by simp)
    have hcs2 : ∀ x ∈ cs, x ≠ [] ∧ x.length ≤ 184 := fun x hx => hcs x (by simp [hx])
    have hbne : b ≠ [] := by
      intro hb0
      rw [hb0] at h3
      simp at h3
    rw [List.map_cons, runCollector_cons,
      add_packet_cont pid tid b c hpid hcne hclen hbne]
    have hbc_pref : (b ++ c) ++ cs.join = S := by
      rw [List.append_assoc, ← List.join_cons, hjoin]
    by_cases hnil : cs = []
    · subst hnil
      simp only [List.join_nil, List.append_nil] at hbc_pref
      rw [hbc_pref, extract_exact S hw]
      simp [runCollector_nil]
    · obtain ⟨c2, cs2, rfl⟩ : ∃ c2 cs2, cs = c2 :: cs2 := by
        cases cs with
        | nil => exact absurd rfl hnil
        | cons a l => exact ⟨a, l, rfl⟩
      have hc2ne := (hcs2 c2 (by simp)).1
      have hc2pos : 0 < c2.length := List.length_pos.mpr hc2ne
      have hlenS : S.length = b.length + c.length + (c2 :: cs2).join.length := by
        rw [← hbc_pref]
        simp only [List.length_append]
      have hjoinlen : c2.length ≤ (c2 :: cs2).join.length := by
        simp [List.join_cons, List.length_append]
      have hlt2 : (b ++ c).length < S.length := by
        simp only [List.length_append]
        omega
      have hshort : extract_from_buffer (b ++ c) = ([], b ++ c) := by
        apply extract_short
        have e1 : sectionTotal (b ++ c) = sectionTotal b := sectionTotal_append b c h3
        have e2 : sectionTotal S = sectionTotal b := by
          rw [← hbc_pref, sectionTotal_append _ _ (by simp only [List.length_append]; omega), e1]
        omega
      rw [hshort]
      have hrun := ih (b ++ c) (by simp only [List.length_append]; omega) hlt2 hbc_pref hcs2
      rw [hrun]
      simp

/-! ## Claim C3 -/

/-- C3: whenever a buffer holds at least 3 bytes and its length is at least
the 12-bit declared length plus 3, `_extract_from_buffer` emits exactly the
leading declared-length+3 bytes as one section (here the well-formed
section `S` heading the buffer), removes them, and skips any leading 0xFF
stuffing bytes before continuing on the remainder; the stuffing bytes
appear in no emitted section and shift no boundary; a buffer too short for
its declared length yields no section and is left unchanged (and the
function, being total, never raises). -/
theorem C3_drain_and_padding (S rest buf : List Nat) (k : Nat)
    (hw : sectionTotal S = S.length) (hrest : rest.head? ≠ some 0xFF)
    (hshort : buf.length < sectionTotal buf) :
    extract_from_buffer (S ++ List.replicate k 0xFF ++ rest) =
      (S :: (extract_from_buffer rest).1, (extract_from_buffer rest).2)
    ∧ extract_from_buffer buf = ([], buf) :=
  ⟨extract_section_front S rest k hw hrest, extract_short buf hshort⟩

/-- Witness for C3 at a concrete buffer: a 4-byte section with declared
length 1, two stuffing bytes, then a 1-byte remainder, plus a 2-byte
buffer that is too short. -/
theorem C3_drain_and_padding_witness :
    sectionTotal [0x00, 0x00, 0x01, 0xAB] = 4 ∧
    extract_from_buffer ([0x00, 0x00, 0x01, 0xAB] ++ List.replicate 2 0xFF ++ [0x42]) =
      ([0x00, 0x00, 0x01, 0xAB] :: (extract_from_buffer [0x42]).1,
       (extract_from_buffer [0x42]).2) ∧
    extract_from_buffer [0x00, 0x05] = ([], [0x00, 0x05]) := by
  refine ⟨by decide, ?_, ?_⟩
  · exact (C3_drain_and_padding [0x00, 0x00, 0x01, 0xAB] [0x42] [0x00, 0x05] 2
      (by decide) (by decide) (by decide)).1
  · exact (C3_drain_and_padding [0x00, 0x00, 0x01, 0xAB] [0x42] [0x00, 0x05] 2
      (by decide) (by decide) (by decide)).2

/-! ## Claim C10 -/

/-- C10: for every packet whose computed payload offset is at or beyond
the packet length (for example a packet whose adaptation field fills it),
`add_packet` returns the empty list and leaves every section buffer
unchanged. -/
theorem C10_no_payload (buffers : Buffers) (packet : List Nat)
    (h : get_payload_offset packet ≥ packet.length) :
    add_packet buffers packet = ([], buffers) := by
  simp only [add_packet]
  rw [if_pos h]

set_option maxRecDepth 100000 in
/-- Witness for C10: a 188-byte packet whose adaptation field fills the
whole packet body (payload offset 188), fed to a collector holding one
non-empty buffer. -/
theorem C10_no_payload_witness :
    get_payload_offset (mkPacket false 0 []) ≥ (mkPacket false 0 []).length ∧
    add_packet [((0x12, 0x4E), [0x01])] (mkPacket false 0 []) =
      ([], [((0x12, 0x4E), [0x01])]) := by
  constructor
  · decide
  · exact C10_no_payload _ _ (by decide)

/-! ## Claim C1 -/

/-- C1 (amended): for every complete section `S` (well-formed: its length
equals its 12-bit declared length plus 3) split at arbitrary byte
boundaries into a first fragment of at least 3 bytes carried by a
unit-start packet with pointer field zero and further fragments carried by
continuation packets, feeding the packets in order to a fresh collector
emits exactly the same sections as delivering `S` whole in one unit-start
packet payload, namely `[S]`. -/
theorem C1_split_invariance_amended (S c1 : List Nat) (cs : List (List Nat)) (pid : Nat)
    (hw : sectionTotal S = S.length) (hpid : pid < 8192)
    (hsplit : c1 ++ cs.join = S) (hc13 : 3 ≤ c1.length) (hc1len : c1.length ≤ 183)
    (hcs : ∀ c ∈ cs, c ≠ [] ∧ c.length ≤ 184) (hSlen : S.length ≤ 183) :
    (runCollector [] (mkPacket true pid (0x00 :: c1) ::
        cs.map (fun c => mkPacket false pid c))).1 =
      (runCollector [] [mkPacket true pid (0x00 :: S)]).1
    ∧ (runCollector [] [mkPacket true pid (0x00 :: S)]).1 = [S] := by
  have hS3 : 3 ≤ S.length := by unfold sectionTotal at hw; omega
  have hwhole : (runCollector [] [mkPacket true pid (0x00 :: S)]).1 = [S] := by
    rw [runCollector_cons, add_packet_start pid S hpid (by omega) hS3, extract_exact S hw]
    simp [runCollector_nil]
  refine ⟨?_, hwhole⟩
  rw [hwhole]
  rw [runCollector_cons, add_packet_start pid c1 hpid (by omega) hc13]
  by_cases hnil : cs = []
  · subst hnil
    simp only [List.join_nil, List.append_nil] at hsplit
    rw [hsplit, extract_exact S hw]
    simp [runCollector_nil]
  · obtain ⟨c2, cs2, rfl⟩ : ∃ c2 cs2, cs = c2 :: cs2 := by
      cases cs with
      | nil => exact absurd rfl hnil
      | cons a l => exact ⟨a, l, rfl⟩
    have hc2ne := (hcs c2 (by simp)).1
    have hc2pos : 0 < c2.length := List.length_pos.mpr hc2ne
    have hlenS : S.length = c1.length + (c2 :: cs2).join.length := by
      rw [← hsplit]
      simp only [List.length_append]
    have hjoinlen : c2.length ≤ (c2 :: cs2).join.length := by
      simp [List.join_cons, List.length_append]
    have hlt : c1.length < S.length := by omega
    have hshort : extract_from_buffer c1 = ([], c1) := by
      apply extract_short
      have e2 : sectionTotal S = sectionTotal c1 := by
        rw [← hsplit, sectionTotal_append _ _ hc13]
      omega
    rw [hshort]
    rw [runCont S pid (c1.getD 0 0) hw hpid (c2 :: cs2) c1 hc13 hlt hsplit hcs]
    simp

set_option maxRecDepth 100000 in
/-- Counterexample to C1 as stated: the 3-byte complete section
`[0x00, 0x00, 0x00]` split after its second byte (first fragment 2 bytes,
below the 3-byte minimum that `add_packet` silently requires of a new
section start) is lost entirely, while whole delivery emits it. -/
theorem C1_counterexample :
    sectionTotal [0x00, 0x00, 0x00] = 3
    ∧ (runCollector [] [mkPacket true 0x12 (0x00 :: [0x00, 0x00]),
        mkPacket false 0x12 [0x00]]).1 = []
    ∧ (runCollector [] [mkPacket true 0x12 (0x00 :: ([0x00, 0x00] ++ [[0x00]].join))]).1
        = [[0x00, 0x00, 0x00]] := by
  refine ⟨by decide, by decide, by decide⟩

set_option maxRecDepth 100000 in
/-- Witness for C1 (amended) at a concrete section: the 4-byte section
`[0x00, 0x00, 0x01, 0x2A]` split as `[0x00, 0x00, 0x01]` then `[0x2A]`. -/
theorem C1_split_invariance_witness :
    sectionTotal [0x00, 0x00, 0x01, 0x2A] = 4 ∧
    (runCollector [] (mkPacket true 0x12 (0x00 :: [0x00, 0x00, 0x01]) ::
        [[0x2A]].map (fun c => mkPacket false 0x12 c))).1 =
      (runCollector [] [mkPacket true 0x12 (0x00 :: [0x00, 0x00, 0x01, 0x2A])]).1 := by
  constructor
  · decide
  · exact (C1_split_invariance_amended [0x00, 0x00, 0x01, 0x2A] [0x00, 0x00, 0x01]
      [[0x2A]] 0x12 (by decide) (by decide) (by decide) (by decide) (by decide)
      (by decide) (by decide)).1

/-! ## Claim C2 -/

/-- C2 evaluated at the failing input: `parse_eit_section` hits the
uncaught `IndexError` of `desc_data[0]` (modelled as `none`) on a 30-byte
section whose single event entry carries one extended-event descriptor
(tag 0x4E) with declared length 0.  This contradicts the claimed
never-raise policy, so the claim marks a code bug rather than holding on
the code. -/
theorem C2_crash_on_zero_length_extended :
    parse_eit_section decZero eitCrashSection = none := by
  decide

/-- Characterization of `pyInt` (Python `int()` truncation) on nonnegative
values: it is the floor. -/
theorem pyInt_of_nonneg (q : ℚ) (n : ℤ) (hn : 0 ≤ n) (h1 : (n : ℚ) ≤ q)
    (h2 : q < n + 1) : pyInt q = n := by
  have hq : (0 : ℚ) ≤ q := le_trans (by exact_mod_cast hn) h1
  have hnum : 0 ≤ q.num := Rat.num_nonneg.mpr hq
  have hden : (0 : ℤ) ≤ (q.den : ℤ) := Int.ofNat_nonneg q.den
  unfold pyInt
  rw [Int.tdiv_eq_ediv hnum hden, ← Rat.floor_def]
  exact Int.floor_eq_iff.mpr ⟨h1, h2⟩

/-! ## Claim C6 -/

/-- C6: `mjd_to_datetime` applied to the day count 58849 (2020-01-01 in
MJD) with all-zero BCD time fields returns the timestamp
2020-01-01T00:00:00; and for every day-count and BCD time combination
whose decoded calendar fields do not form a valid date, it returns `none`
(modelling the caught `ValueError`, never a propagated exception). -/
theorem C6_time_codec :
    mjd_to_datetime 58849 0 0 0 =
      some { year := 2020, month := 1, day := 1, hour := 0, minute := 0, second := 0 }
    ∧ ∀ (mjd hour_bcd min_bcd sec_bcd : Nat),
        ¬ pyDatetimeValid (mjd_fields mjd hour_bcd min_bcd sec_bcd).1
            (mjd_fields mjd hour_bcd min_bcd sec_bcd).2.1
            (mjd_fields mjd hour_bcd min_bcd sec_bcd).2.2.1
            (mjd_fields mjd hour_bcd min_bcd sec_bcd).2.2.2.1
            (mjd_fields mjd hour_bcd min_bcd sec_bcd).2.2.2.2.1
            (mjd_fields mjd hour_bcd min_bcd sec_bcd).2.2.2.2.2 →
        mjd_to_datetime mjd hour_bcd min_bcd sec_bcd = none := by
  constructor
  · have hy : pyInt ((((58849 : ℕ) : ℚ) - 15078.2) / 365.25) = 119 :=
      pyInt_of_nonneg _ _ (by norm_num) (by norm_num) (by norm_num)
    have hi : pyInt (((119 : ℤ) : ℚ) * 365.25) = 43464 :=
      pyInt_of_nonneg _ _ (by norm_num) (by norm_num) (by norm_num)
    have hm : pyInt ((((58849 : ℕ) : ℚ) - 14956.1 - ((43464 : ℤ) : ℚ)) / 30.6001) = 14 :=
      pyInt_of_nonneg _ _ (by norm_num) (by norm_num) (by norm_num)
    have hd : pyInt (((14 : ℤ) : ℚ) * 30.6001) = 428 :=
      pyInt_of_nonneg _ _ (by norm_num) (by norm_num) (by norm_num)
    unfold mjd_to_datetime mjd_fields
    simp only [hy, hi, hm, hd]
    decide
  · intro mjd hb mb sb hinv
    unfold mjd_to_datetime pyDatetime
    rw [if_neg hinv]

/-- Witness for C6 at a concrete invalid combination: BCD hour byte 0x99
decodes to hour 99, an impossible time of day. -/
theorem C6_time_codec_witness :
    (¬ pyDatetimeValid (mjd_fields 58849 0x99 0 0).1 (mjd_fields 58849 0x99 0 0).2.1
        (mjd_fields 58849 0x99 0 0).2.2.1 (mjd_fields 58849 0x99 0 0).2.2.2.1
        (mjd_fields 58849 0x99 0 0).2.2.2.2.1 (mjd_fields 58849 0x99 0 0).2.2.2.2.2)
    ∧ mjd_to_datetime 58849 0x99 0 0 = none := by
  have hh : (mjd_fields 58849 0x99 0 0).2.2.2.1 = 99 := rfl
  have hinv : ¬ pyDatetimeValid (mjd_fields 58849 0x99 0 0).1
      (mjd_fields 58849 0x99 0 0).2.1 (mjd_fields 58849 0x99 0 0).2.2.1
      (mjd_fields 58849 0x99 0 0).2.2.2.1 (mjd_fields 58849 0x99 0 0).2.2.2.2.1
      (mjd_fields 58849 0x99 0 0).2.2.2.2.2 := by
    intro hval
    have h23 := hval.2.2.2.2.2.2.2.1
    rw [hh] at h23
    omega
  exact ⟨hinv, C6_time_codec.2 58849 0x99 0 0 hinv⟩

/-! ## Claim C5 -/

theorem collectItems_go_congr : ∀ (f1 f2 : Nat) (payload : List Nat)
    (acc : List (List Nat × List Nat)), payload.length ≤ f1 → payload.length ≤ f2 →
    collectItems_go f1 payload acc = collectItems_go f2 payload acc := by
  intro f1
  induction f1 with
  | zero =>
    intro f2 payload acc h1 h2
    have hnil : payload = [] := List.eq_nil_of_length_eq_zero (by omega)
    subst hnil
    cases f2 <;> simp [collectItems_go]
  | succ n ih =>
    intro f2 payload acc h1 h2
    cases payload with
    | nil => cases f2 <;> simp [collectItems_go]
    | cons name_len rest =>
      cases f2 with
      | zero => simp at h2
      | succ m =>
        simp only [collectItems_go]
        rcases hdrop : rest.drop name_len with _ | ⟨content_len, rest3⟩
        · rfl
        · have hlen3 : rest3.length + 1 ≤ rest.length := by
            have hc := congrArg List.length hdrop
            simp only [List.length_drop, List.length_cons] at hc
            omega
          have hlen4 : (rest3.drop content_len).length ≤ rest3.length := by
            simp [List.length_drop]
          apply ih
          · simp only [List.length_cons] at h1
            omega
          · simp only [List.length_cons] at h2
            omega

theorem collectItems_go_spend (fuel : Nat) (payload : List Nat)
    (acc : List (List Nat × List Nat)) (h : payload.length ≤ fuel) :
    collectItems_go fuel payload acc = collectItems payload acc :=
  collectItems_go_congr fuel payload.length payload acc h (le_refl _)

theorem collectItems_encode_step (n c t : List Nat) (acc : List (List Nat × List Nat)) :
    collectItems ((n.length :: n) ++ (c.length :: c) ++ t) acc =
      collectItems t (if n.length > 0 ∨ acc = [] then acc ++ [(n, c)]
        else appendLast acc c) := by
  have hshape : (n.length :: n) ++ (c.length :: c) ++ t =
      n.length :: (n ++ ((c.length :: c) ++ t)) := by simp
  rw [show collectItems ((n.length :: n) ++ (c.length :: c) ++ t) acc =
      collectItems_go ((n.length :: n) ++ (c.length :: c) ++ t).length
        ((n.length :: n) ++ (c.length :: c) ++ t) acc from rfl]
  rw [hshape]
  simp only [List.length_cons, collectItems_go]
  rw [List.take_left' rfl, List.drop_left' rfl]
  simp only [List.cons_append, List.nil_append]
  rw [List.take_left' rfl, List.drop_left' rfl]
  apply collectItems_go_spend
  simp only [List.length_append, List.length_cons]
  omega

theorem collectItems_trunc (trunc : List Nat) (acc : List (List Nat × List Nat))
    (htr : trunc = [] ∨ ∃ k g, trunc = k :: g ∧ g.length ≤ k) :
    collectItems trunc acc = acc := by
  rcases htr with rfl | ⟨k, g, rfl, hg⟩
  · rfl
  · rw [show collectItems (k :: g) acc = collectItems_go (k :: g).length (k :: g) acc from rfl]
    simp only [List.length_cons, collectItems_go]
    rw [List.drop_eq_nil_of_le hg]

theorem collectItems_encode (ts : List (List Nat × List Nat)) (trunc : List Nat)
    (htr : trunc = [] ∨ ∃ k g, trunc = k :: g ∧ g.length ≤ k) :
    ∀ acc, collectItems (encodeItems ts ++ trunc) acc =
      ts.foldl (fun a nc => if nc.1.length > 0 ∨ a = [] then a ++ [nc]
        else appendLast a nc.2) acc := by
  induction ts with
  | nil =>
    intro acc
    simp only [encodeItems, List.nil_append, List.foldl_nil]
    exact collectItems_trunc trunc acc htr
  | cons nc ts ih =>
    intro acc
    obtain ⟨n, c⟩ := nc
    have hdecomp : encodeItems ((n, c) :: ts) ++ trunc =
        (n.length :: n) ++ (c.length :: c) ++ (encodeItems ts ++ trunc) := by
      simp [encodeItems]
    rw [hdecomp, collectItems_encode_step, ih]
    rfl

/-- C5 (amended): on an item byte stream holding a well-formed encoding of
(name, content) tuples possibly followed by one truncated tuple,
`decode_combined_extended_info` realises exactly the specification merge
rule: a tuple with name length zero that is not the first tuple has its
content appended to the previous entry, the first tuple always starts an
entry, each retained entry renders as "[name]\n" + content when the
decoded name is non-empty and as the bare content otherwise, the truncated
tail contributes nothing, and one final text entry is appended when the
text bytes are non-empty AND decode to a non-empty string, all
newline-joined. -/
theorem C5_combiner_amended (dec : List Nat → String) (ts : List (List Nat × List Nat))
    (trunc txt : List Nat)
    (hbytes : ∀ p ∈ ts, p.1.length ≤ 255 ∧ p.2.length ≤ 255)
    (htr : trunc = [] ∨ ∃ k g, trunc = k :: g ∧ g.length ≤ k) :
    decode_combined_extended_info dec (encodeItems ts ++ trunc) txt =
      String.intercalate "\n" ((mergeSpec ts).map (renderEntry dec) ++
        (if txt ≠ [] ∧ dec txt ≠ "" then [dec txt] else [])) := by
  unfold decode_combined_extended_info mergeSpec
  rw [collectItems_encode ts trunc htr []]
  by_cases htxt : txt ≠ []
  · by_cases hdec : dec txt ≠ ""
    · simp [htxt, hdec]
    · simp [htxt, hdec]
  · simp [htxt]

/-- Counterexample to C5 as stated: with the contract-conforming decoder
`decZero` (best effort, possibly empty on undecodable input), the
non-empty text bytes `[2]` decode to the empty string and the source
appends no final entry, while the claim as stated demands one appended
entry for any non-empty text bytes. -/
theorem C5_counterexample :
    decode_combined_extended_info decZero [1, 1, 0] [2] = "[A]\n"
    ∧ "[A]\n" ≠ String.intercalate "\n" ["[A]\n", decZero [2]] := by
  constructor
  · decide
  · decide

/-- Witness for C5 (amended) at one concrete stream: one encoded tuple
`([2], [3])`, a truncated tail `[5, 0xAA]`, and text bytes `[7]`. -/
theorem C5_combiner_witness :
    (∀ p ∈ [(([2] : List Nat), ([3] : List Nat))], p.1.length ≤ 255 ∧ p.2.length ≤ 255) ∧
    decode_combined_extended_info decZero (encodeItems [([2], [3])] ++ [5, 0xAA]) [7] =
      String.intercalate "\n" ((mergeSpec [([2], [3])]).map (renderEntry decZero) ++
        (if ([7] : List Nat) ≠ [] ∧ decZero [7] ≠ "" then [decZero [7]] else [])) := by
  refine ⟨by decide, ?_⟩
  exact C5_combiner_amended decZero [([2], [3])] [5, 0xAA] [7] (by decide)
    (Or.inr ⟨5, [0xAA], rfl, by decide⟩)

/-! ## Claim C4 -/

theorem dictSet_of_not_mem (d : List (Nat × List Nat)) (k : Nat) (v : List Nat)
    (h : k ∉ d.map Prod.fst) : dictSet d k v = d ++ [(k, v)] := by
  unfold dictSet
  rw [if_neg]
  intro hany
  obtain ⟨p, hp, hpk⟩ := List.any_eq_true.mp hany
  apply h
  have : p.1 = k := by simpa using hpk
  rw [← this]
  exact List.mem_map_of_mem _ hp

theorem extFold_eq_map (l : List (Nat × List Nat × List Nat)) :
    ∀ (di dt : List (Nat × List Nat)),
      (∀ t ∈ l, t.1 ∉ di.map Prod.fst) → (∀ t ∈ l, t.1 ∉ dt.map Prod.fst) →
      (l.map (fun t => t.1)).Nodup →
      l.foldl extDictsInsert (di, dt) =
        (di ++ l.map (fun t => (t.1, t.2.1)), dt ++ l.map (fun t => (t.1, t.2.2))) := by
  induction l with
  | nil =>
    intro di dt _ _ _
    simp
  | cons t l ih =>
    intro di dt hdi hdt hnodup
    simp only [List.foldl_cons, extDictsInsert]
    rw [dictSet_of_not_mem di t.1 t.2.1 (hdi t (by simp)),
        dictSet_of_not_mem dt t.1 t.2.2 (hdt t (by simp))]
    have hnodup2 : (t.1 :: l.map (fun t => t.1)).Nodup := by simpa using hnodup
    have hnd := List.nodup_cons.mp hnodup2
    have hstep := ih (di ++ [(t.1, t.2.1)]) (dt ++ [(t.1, t.2.2)])
      (by
        intro x hx
        simp only [List.map_append, List.mem_append]
        rintro (hcase | hcase)
        · exact hdi x (by simp [hx]) hcase
        · simp at hcase
          apply hnd.1
          rw [← hcase]
          exact List.mem_map_of_mem _ hx)
      (by
        intro x hx
        simp only [List.map_append, List.mem_append]
        rintro (hcase | hcase)
        · exact hdt x (by simp [hx]) hcase
        · simp at hcase
          apply hnd.1
          rw [← hcase]
          exact List.mem_map_of_mem _ hx)
      hnd.2
    rw [hstep]
    simp

theorem find?_key_eq_none (d : List (Nat × List Nat)) (k : Nat)
    (h : k ∉ d.map Prod.fst) : d.find? (fun p => p.1 == k) = none := by
  apply List.find?_eq_none.mpr
  intro x hx
  simp only [beq_iff_eq]
  intro hxk
  apply h
  rw [← hxk]
  exact List.mem_map_of_mem _ hx

theorem find?_key_eq_some (d : List (Nat × List Nat)) (k : Nat) (x : Nat × List Nat)
    (hnodup : (d.map Prod.fst).Nodup) (hx : x ∈ d) (hk : x.1 = k) :
    d.find? (fun p => p.1 == k) = some x := by
  induction d with
  | nil => simp at hx
  | cons y d ih =>
    have hnodup2 : (y.1 :: d.map Prod.fst).Nodup := by simpa using hnodup
    have hnd := List.nodup_cons.mp hnodup2
    rcases List.mem_cons.mp hx with rfl | hx2
    · simp [List.find?_cons, hk]
    · have hyk : (y.1 == k) = false := by
        simp only [beq_eq_false_iff_ne, ne_eq]
        intro hyk
        apply hnd.1
        rw [hyk, ← hk]
        exact List.mem_map_of_mem _ hx2
      rw [List.find?_cons, hyk]
      exact ih hnd.2 hx2

theorem dictLookup_perm (d1 d2 : List (Nat × List Nat)) (hperm : d1.Perm d2)
    (hnodup : (d1.map Prod.fst).Nodup) (k : Nat) :
    dictLookup d1 k = dictLookup d2 k := by
  unfold dictLookup
  by_cases hk : k ∈ d1.map Prod.fst
  · obtain ⟨x, hx, hxk⟩ : ∃ x ∈ d1, x.1 = k := by
      obtain ⟨x, hx, hxk⟩ := List.mem_map.mp hk
      exact ⟨x, hx, hxk⟩
    have hnodup2 : (d2.map Prod.fst).Nodup :=
      ((hperm.map Prod.fst).nodup_iff).mp hnodup
    rw [find?_key_eq_some d1 k x hnodup hx hxk,
        find?_key_eq_some d2 k x hnodup2 (hperm.mem_iff.mp hx) hxk]
  · have hk2 : k ∉ d2.map Prod.fst := by
      intro hc
      exact hk (((hperm.map Prod.fst).mem_iff).mpr hc)
    rw [find?_key_eq_none d1 k hk, find?_key_eq_none d2 k hk2]

theorem any_key_eq_of_perm (d1 d2 : List (Nat × List Nat)) (hperm : d1.Perm d2) (k : Nat) :
    d1.any (fun p => p.1 == k) = d2.any (fun p => p.1 == k) := by
  apply Bool.coe_iff_coe.mp
  simp only [List.any_eq_true]
  constructor
  · rintro ⟨p, hp, hpk⟩
    exact ⟨p, hperm.mem_iff.mp hp, hpk⟩
  · rintro ⟨p, hp, hpk⟩
    exact ⟨p, hperm.mem_iff.mpr hp, hpk⟩

theorem sortedKeysJoin_perm (d1 d2 : List (Nat × List Nat)) (hperm : d1.Perm d2)
    (hnodup : (d1.map Prod.fst).Nodup) :
    sortedKeysJoin d1 = sortedKeysJoin d2 := by
  unfold sortedKeysJoin
  rw [List.filter_congr (fun k _ => any_key_eq_of_perm d1 d2 hperm k)]
  rw [List.map_congr_left (fun k _ => dictLookup_perm d1 d2 hperm hnodup k)]

theorem extCombine_perm (l1 l2 : List (Nat × List Nat × List Nat))
    (hperm : l1.Perm l2) (hnodup : (l1.map (fun t => t.1)).Nodup) :
    extCombine l1 = extCombine l2 := by
  unfold extCombine
  have hnodup2 : (l2.map (fun t => t.1)).Nodup :=
    ((hperm.map (fun t => t.1)).nodup_iff).mp hnodup
  rw [extFold_eq_map l1 [] [] (by simp) (by simp) hnodup,
      extFold_eq_map l2 [] [] (by simp) (by simp) hnodup2]
  simp only [List.nil_append]
  have hnodupI : ((l1.map (fun t => (t.1, t.2.1))).map Prod.fst).Nodup := by
    simpa [List.map_map, Function.comp] using hnodup
  have hnodupT : ((l1.map (fun t => (t.1, t.2.2))).map Prod.fst).Nodup := by
    simpa [List.map_map, Function.comp] using hnodup
  rw [sortedKeysJoin_perm _ _ (hperm.map (fun t => (t.1, t.2.1))) hnodupI,
      sortedKeysJoin_perm _ _ (hperm.map (fun t => (t.1, t.2.2))) hnodupT]

/-- C4: for every event, the extended-text fragments `(sequence number,
item bytes, text bytes)` collected from its extended descriptors are
combined by ascending embedded sequence number (item and text halves
joined separately over the sorted dictionary keys), so two arrival orders
that are permutations of each other with pairwise-distinct 4-bit sequence
numbers produce the same combined byte strings and hence the same
extended-info string under any text decoder. -/
theorem C4_fragment_order_invariance (dec : List Nat → String)
    (l1 l2 : List (Nat × List Nat × List Nat))
    (hperm : l1.Perm l2) (hnodup : (l1.map (fun t => t.1)).Nodup)
    (hseq : ∀ t ∈ l1, t.1 < 16) :
    extCombine l1 = extCombine l2 ∧
    decode_combined_extended_info dec (extCombine l1).1 (extCombine l1).2 =
      decode_combined_extended_info dec (extCombine l2).1 (extCombine l2).2 := by
  have h := extCombine_perm l1 l2 hperm hnodup
  exact ⟨h, by rw [h]⟩

/-- Witness for C4: two fragments with sequence numbers 2 and 0 fed in the
two possible orders yield the same combined byte strings. -/
theorem C4_fragment_order_invariance_witness :
    ([(2, ([10], [11])), (0, ([12], [13]))] :
        List (Nat × List Nat × List Nat)).Perm
      [(0, ([12], [13])), (2, ([10], [11]))] ∧
    extCombine [(2, ([10], [11])), (0, ([12], [13]))] =
      extCombine [(0, ([12], [13])), (2, ([10], [11]))] := by
  have hp : ([(2, ([10], [11])), (0, ([12], [13]))] :
      List (Nat × List Nat × List Nat)).Perm
      [(0, ([12], [13])), (2, ([10], [11]))] := List.Perm.swap _ _ _
  exact ⟨hp, (C4_fragment_order_invariance decZero _ _ hp (by decide) (by decide)).1⟩

/-! ## Claim C7 -/

theorem genre_middle_values_nonempty :
    ∀ (lv : Nat) (tbl : List (Nat × String)), ARIB_GENRE_MIDDLE lv = some tbl →
      ∀ p ∈ tbl, p.2 ≠ "" := by
  intro lv tbl h
  unfold ARIB_GENRE_MIDDLE at h
  split at h <;>
    first
      | (injection h with h2; subst h2; decide)
      | exact absurd h (by simp)

theorem tableGet_nonempty (lv : Nat) (tbl : List (Nat × String)) (c : Nat) (s : String)
    (h : ARIB_GENRE_MIDDLE lv = some tbl) (hget : tableGet tbl c = some s) : s ≠ "" := by
  unfold tableGet at hget
  rcases hfound : tbl.find? (fun q => q.1 == c) with _ | p
  · rw [hfound] at hget
    simp at hget
  · rw [hfound] at hget
    simp only [Option.map_some'] at hget
    have hmem := List.mem_of_find?_eq_some hfound
    have hs : p.2 = s := by simpa using hget
    rw [← hs]
    exact genre_middle_values_nonempty lv tbl h p hmem

theorem parse_content_entry_shape :
    ∀ (data : List Nat), ∀ g ∈ parse_content_descriptor data,
      ∃ lv2, g.middle = (ARIB_GENRE_MIDDLE g.large_code).map
        (fun tbl => (lv2, (tableGet tbl lv2).getD "不明"))
  | [] => by simp [parse_content_descriptor]
  | [_] => by simp [parse_content_descriptor]
  | b0 :: b1 :: rest => by
    intro g hg
    rw [parse_content_descriptor] at hg
    rcases List.mem_cons.mp hg with rfl | hg2
    · refine ⟨b0 &&& 0x0F, ?_⟩
      simp only []
      cases hmid : ARIB_GENRE_MIDDLE ((b0 >>> 4) &&& 0x0F) with
      | none => simp [hmid]
      | some tbl =>
        simp only [hmid, Option.map_some']
        rw [if_pos]
        rcases hget : tableGet tbl (b0 &&& 0x0F) with _ | s
        · simp [hget]
        · simp only [hget, Option.getD_some]
          exact tableGet_nonempty _ tbl _ s hmid hget
    · exact parse_content_entry_shape rest g hg2

/-- C7 (amended): for every decoded genre entry, the optional
middle-category pair is present exactly when the large-category code has a
known middle-category sub-table (codes 0x0 through 0xB); when present, the
middle name is the sub-table entry for the middle code, defaulting to
不明 when the middle code does not resolve — an entry with an
unresolvable middle category therefore still carries a middle pair rather
than reporting the large category alone. -/
theorem C7_genre_middle_amended :
    (∀ (data : List Nat) (g : GenreInfo), g ∈ parse_content_descriptor data →
      (g.middle.isSome ↔ (ARIB_GENRE_MIDDLE g.large_code).isSome))
    ∧ (∀ (data : List Nat) (g : GenreInfo) (tbl : List (Nat × String)) (c : Nat)
        (n : String), g ∈ parse_content_descriptor data →
        ARIB_GENRE_MIDDLE g.large_code = some tbl → g.middle = some (c, n) →
        n = (tableGet tbl c).getD "不明") := by
  constructor
  · intro data g hg
    obtain ⟨lv2, hmid⟩ := parse_content_entry_shape data g hg
    rw [hmid]
    cases ARIB_GENRE_MIDDLE g.large_code <;> simp
  · intro data g tbl c n hg htbl hmid
    obtain ⟨lv2, hshape⟩ := parse_content_entry_shape data g hg
    rw [htbl, Option.map_some'] at hshape
    rw [hshape] at hmid
    have hcn : lv2 = c ∧ (tableGet tbl lv2).getD "不明" = n := by simpa using hmid
    rw [← hcn.2, hcn.1]

/-- Counterexample to C7 as stated: the 2-byte entry 0x35 0x00 selects
large category 0x3 (ドラマ), whose sub-table does not resolve middle code
0x5; the decoder still reports a middle pair (0x5, 不明) instead of the
large category alone. -/
theorem C7_counterexample :
    ARIB_GENRE_MIDDLE 0x3 = some GENRE_MIDDLE_03
    ∧ tableGet GENRE_MIDDLE_03 0x5 = none
    ∧ parse_content_descriptor [0x35, 0x00] =
        [{ large_code := 0x3, large_name := "ドラマ", middle := some (0x5, "不明") }] := by
  refine ⟨rfl, by decide, by decide⟩

/-- Witness for C7 (amended) at the concrete entry 0x35 0x00. -/
theorem C7_genre_middle_witness :
    (({ large_code := 0x3, large_name := "ドラマ",
        middle := some (0x5, "不明") } : GenreInfo).middle.isSome ↔
      (ARIB_GENRE_MIDDLE
          ({ large_code := 0x3, large_name := "ドラマ",
             middle := some (0x5, "不明") } : GenreInfo).large_code).isSome) :=
  C7_genre_middle_amended.1 [0x35, 0x00]
    { large_code := 0x3, large_name := "ドラマ", middle := some (0x5, "不明") }
    (by decide)

/-! ## Claim C8 -/

/-- C8: for every decoded component descriptor, the optional detail record
is the static-table lookup selected by the stream content, and it is
present exactly when the type code is recognized in the matching table
(video table for stream content 1, audio table for stream content 2 in
`parse_component_descriptor`; audio table for stream content 2 in
`parse_audio_component_descriptor`, whose otherwise always-present
`details` dictionary is empty, modelled `none`, in every other case). -/
theorem C8_component_details :
    (∀ (dec : List Nat → String) (data : List Nat) (sc ct tag : Nat)
        (lang txt : String) (det : Option ComponentDetails),
        parse_component_descriptor dec data = .basic sc ct tag lang txt det →
        (det.isSome ↔ ((sc = 1 ∧ (COMPONENT_TYPE_VIDEO ct).isSome) ∨
          (sc = 2 ∧ ( COMPONENT_TYPE_AUDIO ct).isSome))))
    ∧ (∀ (dec : List Nat → String) (data : List Nat) (sc ct tag st : Nat)
        (lang sr : String) (mc : Bool) (txt : String) (det : Option ComponentDetails),
        parse_audio_component_descriptor dec data = .audio sc ct tag st lang sr mc txt det →
        (det.isSome ↔ (sc = 2 ∧ ( COMPONENT_TYPE_AUDIO ct).isSome))) := by
  constructor
  · intro dec data sc ct tag lang txt det hparse
    unfold parse_component_descriptor at hparse
    by_cases hlen : data.length < 6
    · rw [if_pos hlen] at hparse
      exact absurd hparse (by simp)
    · rw [if_neg hlen] at hparse
      simp only [ComponentResult.basic.injEq] at hparse
      obtain ⟨h1, h2, _, _, _, h6⟩ := hparse
      subst h1
      subst h2
      subst h6
      split_ifs with hsc1 hsc2
      · constructor
        · intro h
          exact Or.inl ⟨hsc1, h⟩
        · rintro (⟨_, h⟩ | ⟨h2, _⟩)
          · exact h
          · omega
      · constructor
        · intro h
          exact Or.inr ⟨hsc2, h⟩
        · rintro (⟨h1, _⟩ | ⟨_, h⟩)
          · omega
          · exact h
      · simp only [Option.isSome_none, Bool.false_eq_true, false_iff]
        rintro (⟨h, _⟩ | ⟨h, _⟩)
        · exact hsc1 h
        · exact hsc2 h
  · intro dec data sc ct tag st lang sr mc txt det hparse
    unfold parse_audio_component_descriptor at hparse
    by_cases hlen : data.length < 9
    · rw [if_pos hlen] at hparse
      exact absurd hparse (by simp)
    · rw [if_neg hlen] at hparse
      simp only [ComponentResult.audio.injEq] at hparse
      obtain ⟨h1, h2, _, _, _, _, _, _, h9⟩ := hparse
      subst h1
      subst h2
      subst h9
      split_ifs with hsc
      · cases hA : COMPONENT_TYPE_AUDIO (data.getD 1 0) <;> simp [hA]
        rw [← List.getD_eq_getElem?_getD]
        exact hsc
      · simp only [Option.isSome_none, Bool.false_eq_true, false_iff]
        rintro ⟨h, _⟩
        exact hsc h

/-- Witness for C8 at a concrete video component descriptor: stream
content 1, component type 0xB3 (1080i 16:9), language "jpn". -/
theorem C8_component_details_witness :
    parse_component_descriptor decZero [0x01, 0xB3, 0x00, 0x6A, 0x70, 0x6E] =
      ComponentResult.basic 1 0xB3 0 "jpn" ""
        (some (ComponentDetails.video "1080i (1125i)" "16:9" false)) ∧
    ((some (ComponentDetails.video "1080i (1125i)" "16:9" false)).isSome ↔
      ((1 = 1 ∧ (COMPONENT_TYPE_VIDEO 0xB3).isSome) ∨
       (1 = 2 ∧ ( COMPONENT_TYPE_AUDIO 0xB3).isSome))) := by
  refine ⟨by decide, ?_⟩
  exact C8_component_details.1 decZero [0x01, 0xB3, 0x00, 0x6A, 0x70, 0x6E]
    1 0xB3 0 "jpn" "" _ (by decide)

/-! ## Claim C9 -/

theorem dedup_foldl (events : List EventTuple) :
    ∀ (seen : List Nat) (acc : List EventTuple),
      (events.foldl (fun st event =>
        if st.1.contains event.event_id then st
        else (event.event_id :: st.1, st.2 ++ [event])) (seen, acc)).2 =
      acc ++ dedupAux seen events := by
  induction events with
  | nil =>
    intro seen acc
    simp [dedupAux]
  | cons e es ih =>
    intro seen acc
    simp only [List.foldl_cons]
    cases hc : seen.contains e.event_id with
    | true =>
      simp only [hc, if_true, dedupAux, ih]
    | false =>
      simp only [hc, Bool.false_eq_true, if_false, dedupAux, ih]
      simp

theorem dedupEvents_eq_aux (events : List EventTuple) :
    dedupEvents events = dedupAux [] events := by
  unfold dedupEvents
  rw [dedup_foldl events [] []]
  simp

theorem dedupAux_sublist (es : List EventTuple) :
    ∀ seen, (dedupAux seen es).Sublist es := by
  induction es with
  | nil =>
    intro seen
    simp [dedupAux]
  | cons e es ih =>
    intro seen
    unfold dedupAux
    cases hc : seen.contains e.event_id with
    | true =>
      simp only [if_true]
      exact (ih seen).cons e
    | false =>
      simp only [Bool.false_eq_true, if_false]
      exact (ih (e.event_id :: seen)).cons₂ e

theorem dedupAux_not_seen (es : List EventTuple) :
    ∀ seen, ∀ x ∈ dedupAux seen es, x.event_id ∉ seen := by
  induction es with
  | nil =>
    intro seen x hx
    simp [dedupAux] at hx
  | cons e es ih =>
    intro seen x hx
    unfold dedupAux at hx
    cases hc : seen.contains e.event_id with
    | true =>
      rw [hc] at hx
      simp only [if_true] at hx
      exact ih seen x hx
    | false =>
      rw [hc] at hx
      simp only [Bool.false_eq_true, if_false] at hx
      rcases List.mem_cons.mp hx with rfl | hx2
      · intro hmem
        simp at hc
        exact hc hmem
      · intro hmem
        exact ih (e.event_id :: seen) x hx2 (by simp [hmem])

theorem dedupAux_ids_nodup (es : List EventTuple) :
    ∀ seen, ((dedupAux seen es).map (fun e => e.event_id)).Nodup := by
  induction es with
  | nil =>
    intro seen
    simp [dedupAux]
  | cons e es ih =>
    intro seen
    unfold dedupAux
    cases hc : seen.contains e.event_id with
    | true =>
      simp only [if_true]
      exact ih seen
    | false =>
      simp only [Bool.false_eq_true, if_false, List.map_cons, List.nodup_cons]
      constructor
      · intro hmem
        obtain ⟨x, hx, hxid⟩ := List.mem_map.mp hmem
        exact dedupAux_not_seen es (e.event_id :: seen) x hx (by simp [hxid])
      · exact ih (e.event_id :: seen)

theorem dedupAux_find (es : List EventTuple) :
    ∀ seen, ∀ e ∈ es, e.event_id ∉ seen →
      (dedupAux seen es).find? (fun x => x.event_id == e.event_id) =
        es.find? (fun x => x.event_id == e.event_id) := by
  induction es with
  | nil =>
    intro seen e he
    simp at he
  | cons y es ih =>
    intro seen e he hseen
    unfold dedupAux
    cases hc : seen.contains y.event_id with
    | true =>
      simp only [if_true]
      have hy : y.event_id ∈ seen := by simpa using hc
      have hne : (y.event_id == e.event_id) = false := by
        simp only [beq_eq_false_iff_ne, ne_eq]
        intro hcontra
        exact hseen (hcontra ▸ hy)
      rw [List.find?_cons, hne]
      rcases List.mem_cons.mp he with rfl | he2
      · exact absurd hy hseen
      · exact ih seen e he2 hseen
    | false =>
      simp only [Bool.false_eq_true, if_false]
      rw [List.find?_cons, List.find?_cons]
      cases hye : y.event_id == e.event_id with
      | true =>
        simp [hye]
      | false =>
        simp only [hye]
        rcases List.mem_cons.mp he with rfl | he2
        · simp at hye
        · refine ih (y.event_id :: seen) e he2 ?_
          simp only [List.mem_cons]
          rintro (hcase | hcase)
          · simp only [beq_eq_false_iff_ne, ne_eq] at hye
            exact hye hcase.symm
          · exact hseen hcase

/-- C9: for every list of decoded events of one service, the retained
events keep each numeric event id exactly once (the retained id list has
no duplicates), in stream order (the result is a sublist of the input),
and the event kept for each input id is exactly the first input occurrence
of that id (`find?` over the result agrees with `find?` over the input for
every input event id), so a later event with the same id is dropped
regardless of differing content. -/
theorem C9_event_dedup (events : List EventTuple) :
    ((dedupEvents events).map (fun e => e.event_id)).Nodup
    ∧ (dedupEvents events).Sublist events
    ∧ ∀ e ∈ events, (dedupEvents events).find? (fun x => x.event_id == e.event_id) =
        events.find? (fun x => x.event_id == e.event_id) := by
  rw [dedupEvents_eq_aux]
  exact ⟨dedupAux_ids_nodup events [], dedupAux_sublist events [],
    fun e he => dedupAux_find events [] e he (by simp)⟩

/-- Witness for C9 at two events sharing id 1 with different content: the
second event is dropped and the lookup for id 1 returns the first. -/
theorem C9_event_dedup_witness :
    ((dedupEvents [⟨1, none, 30, "a", "", "", [], []⟩,
        ⟨1, none, 45, "b", "", "", [], []⟩]).map (fun e => e.event_id)).Nodup
    ∧ (dedupEvents [⟨1, none, 30, "a", "", "", [], []⟩,
        ⟨1, none, 45, "b", "", "", [], []⟩]).find?
          (fun x => x.event_id == (⟨1, none, 45, "b", "", "", [], []⟩ : EventTuple).event_id) =
        [(⟨1, none, 30, "a", "", "", [], []⟩ : EventTuple),
         ⟨1, none, 45, "b", "", "", [], []⟩].find?
          (fun x => x.event_id == (⟨1, none, 45, "b", "", "", [], []⟩ : EventTuple).event_id) :=
  ⟨(C9_event_dedup _).1, (C9_event_dedup _).2.2 _ (by simp)⟩
